import Mathlib

/-!
Verification of the HLS proxy engine in
`src/app/api/proxy/[...segments]/route.ts`.

JavaScript strings are modelled as `List Char` (sequences of Unicode scalar
values); byte sequences as `List Nat` with every element `< 256`.  The
Node.js `Buffer` base64url codec and the UTF-8 codec are embedded
explicitly; Node's base64 decoder is forgiving (it skips characters outside
the alphabet and never throws), which the embedding mirrors.
-/

/-- Shorthand: the character list of a Lean string literal. -/
def jstr (s : String) : List Char := s.data

/-- The whitespace set used by JavaScript's `trimEnd`/`trim` and `\s`:
`WhiteSpace` ∪ `LineTerminator` of the ECMAScript spec. -/
def jsWhitespace (c : Char) : Bool :=
  c = ' ' ∨ c = '\t' ∨ c = '\n' ∨ c.toNat = 0xB ∨ c.toNat = 0xC ∨ c = '\r' ∨
    c.toNat = 0xA0 ∨ c.toNat = 0x1680 ∨ (0x2000 ≤ c.toNat ∧ c.toNat ≤ 0x200A) ∨
    c.toNat = 0x2028 ∨ c.toNat = 0x2029 ∨ c.toNat = 0x202F ∨ c.toNat = 0x205F ∨
    c.toNat = 0x3000 ∨ c.toNat = 0xFEFF

-- ── base64url codec (Node `Buffer`) ────────────────────────────────────────

/-- The base64url alphabet (RFC 4648 §5): sextet value to character. -/
def b64Char (n : Nat) : Char :=
  if n < 26 then Char.ofNat ('A'.toNat + n)
  else if n < 52 then Char.ofNat ('a'.toNat + (n - 26))
  else if n < 62 then Char.ofNat ('0'.toNat + (n - 52))
  else if n = 62 then '-'
  else '_'

/-- Character to sextet value.  Node's decoding table accepts the standard
and the URL-safe alphabet alike; every other character (including `=`)
is invalid and skipped by the forgiving decoder. -/
def b64Val (c : Char) : Option Nat :=
  if 'A' ≤ c ∧ c ≤ 'Z' then some (c.toNat - 'A'.toNat)
  else if 'a' ≤ c ∧ c ≤ 'z' then some (c.toNat - 'a'.toNat + 26)
  else if '0' ≤ c ∧ c ≤ '9' then some (c.toNat - '0'.toNat + 52)
  else if c = '-' ∨ c = '+' then some 62
  else if c = '_' ∨ c = '/' then some 63
  else none

/-- Whether a character belongs to the base64(url) alphabet. -/
def isB64Char (c : Char) : Bool := (b64Val c).isSome

/-- Unpadded base64url encoding of a byte sequence, as produced by
`Buffer.from(·).toString("base64url")`. -/
def base64urlEncode : List Nat → List Char
  | [] => []
  | [a] => [b64Char (a / 4), b64Char (a % 4 * 16)]
  | [a, b] => [b64Char (a / 4), b64Char (a % 4 * 16 + b / 16), b64Char (b % 16 * 4)]
  | a :: b :: c :: rest =>
    b64Char (a / 4) :: b64Char (a % 4 * 16 + b / 16) :: b64Char (b % 16 * 4 + c / 64) ::
      b64Char (c % 64) :: base64urlEncode rest

/-- Reassemble bytes from a sequence of sextet values; a trailing group of
one sextet carries fewer than 8 bits and yields no byte, exactly as in
Node's decoder. -/
def base64SextetsDecode : List Nat → List Nat
  | [] => []
  | [_] => []
  | [a, b] => [a * 4 + b / 16]
  | [a, b, c] => [a * 4 + b / 16, b % 16 * 16 + c / 4]
  | a :: b :: c :: d :: rest =>
    (a * 4 + b / 16) :: (b % 16 * 16 + c / 4) :: (c % 4 * 64 + d) :: base64SextetsDecode rest

/-- Forgiving base64url decoding, as performed by
`Buffer.from(·, "base64url")`: characters outside the alphabet are
skipped (the decode never fails). -/
def base64urlDecode (s : List Char) : List Nat :=
  base64SextetsDecode (s.filterMap b64Val)

theorem b64Val_b64Char : ∀ n < 64, b64Val (b64Char n) = some n := by decide

theorem b64Char_not_ws : ∀ n < 64, jsWhitespace (b64Char n) = false := by decide

theorem b64Char_ne_nl : ∀ n < 64, b64Char n ≠ '\n' := by decide

theorem base64urlEncode_mem {l : List Nat} (hl : ∀ b ∈ l, b < 256) :
    ∀ c ∈ base64urlEncode l, ∃ n, n < 64 ∧ c = b64Char n := by
  induction l using base64urlEncode.induct with
  | case1 => simp [base64urlEncode]
  | case2 a =>
    have ha : a < 256 := hl a (by simp)
    simp only [base64urlEncode, List.mem_cons, List.not_mem_nil, or_false]
    rintro c (rfl | rfl)
    · exact ⟨a / 4, by omega, rfl⟩
    · exact ⟨a % 4 * 16, by omega, rfl⟩
  | case3 a b =>
    have ha : a < 256 := hl a (by simp)
    have hb : b < 256 := hl b (by simp)
    simp only [base64urlEncode, List.mem_cons, List.not_mem_nil, or_false]
    rintro c (rfl | rfl | rfl)
    · exact ⟨a / 4, by omega, rfl⟩
    · exact ⟨a % 4 * 16 + b / 16, by omega, rfl⟩
    · exact ⟨b % 16 * 4, by omega, rfl⟩
  | case4 a b c rest ih =>
    have ha : a < 256 := hl a (by simp)
    have hb : b < 256 := hl b (by simp)
    have hc : c < 256 := hl c (by simp)
    have hrest : ∀ x ∈ rest, x < 256 := fun x hx => hl x (by simp [hx])
    simp only [base64urlEncode, List.mem_cons]
    rintro d (rfl | rfl | rfl | rfl | hd)
    · exact ⟨a / 4, by omega, rfl⟩
    · exact ⟨a % 4 * 16 + b / 16, by omega, rfl⟩
    · exact ⟨b % 16 * 4 + c / 64, by omega, rfl⟩
    · exact ⟨c % 64, by omega, rfl⟩
    · exact ih hrest d hd

theorem base64url_roundtrip {l : List Nat} (hl : ∀ b ∈ l, b < 256) :
    base64urlDecode (base64urlEncode l) = l := by
  induction l using base64urlEncode.induct with
  | case1 => rfl
  | case2 a =>
    have ha : a < 256 := hl a (by simp)
    have h1 := b64Val_b64Char (a / 4) (by omega)
    have h2 := b64Val_b64Char (a % 4 * 16) (by omega)
    simp only [base64urlEncode, base64urlDecode, List.filterMap_cons, h1, h2,
      List.filterMap_nil, base64SextetsDecode, List.cons.injEq, and_true]
    omega
  | case3 a b =>
    have ha : a < 256 := hl a (by simp)
    have hb : b < 256 := hl b (by simp)
    have h1 := b64Val_b64Char (a / 4) (by omega)
    have h2 := b64Val_b64Char (a % 4 * 16 + b / 16) (by omega)
    have h3 := b64Val_b64Char (b % 16 * 4) (by omega)
    simp only [base64urlEncode, base64urlDecode, List.filterMap_cons, h1, h2, h3,
      List.filterMap_nil, base64SextetsDecode, List.cons.injEq, and_true]
    omega
  | case4 a b c rest ih =>
    have ha : a < 256 := hl a (by simp)
    have hb : b < 256 := hl b (by simp)
    have hc : c < 256 := hl c (by simp)
    have hrest : ∀ x ∈ rest, x < 256 := fun x hx => hl x (by simp [hx])
    have h1 := b64Val_b64Char (a / 4) (by omega)
    have h2 := b64Val_b64Char (a % 4 * 16 + b / 16) (by omega)
    have h3 := b64Val_b64Char (b % 16 * 4 + c / 64) (by omega)
    have h4 := b64Val_b64Char (c % 64) (by omega)
    have ihe := ih hrest
    simp only [base64urlEncode, base64urlDecode, List.filterMap_cons, h1, h2, h3, h4,
      base64SextetsDecode] at ihe ⊢
    rw [show a / 4 * 4 + (a % 4 * 16 + b / 16) / 16 = a by omega,
      show (a % 4 * 16 + b / 16) % 16 * 16 + (b % 16 * 4 + c / 64) / 4 = b by omega,
      show (b % 16 * 4 + c / 64) % 4 * 64 + c % 64 = c by omega, ihe]

-- ── UTF-8 codec ────────────────────────────────────────────────────────────

/-- UTF-8 encoding of one Unicode scalar value (1 to 4 bytes). -/
def utf8EncodeChar (c : Char) : List Nat :=
  let n := c.toNat
  if n < 0x80 then [n]
  else if n < 0x800 then [0xC0 + n / 64, 0x80 + n % 64]
  else if n < 0x10000 then [0xE0 + n / 4096, 0x80 + n / 64 % 64, 0x80 + n % 64]
  else [0xF0 + n / 262144, 0x80 + n / 4096 % 64, 0x80 + n / 64 % 64, 0x80 + n % 64]

/-- UTF-8 encoding of a string, as `Buffer.from(s, "utf-8")` produces. -/
def utf8Encode : List Char → List Nat
  | [] => []
  | c :: rest => utf8EncodeChar c ++ utf8Encode rest

/-- Whether a byte is a UTF-8 continuation byte (`10xxxxxx`). -/
def isContByte (b : Nat) : Bool := 0x80 ≤ b ∧ b < 0xC0

/-- U+FFFD, emitted by `buffer.toString("utf-8")` for invalid sequences. -/
def replacementChar : Char := Char.ofNat 0xFFFD


/-- Decode one UTF-8 sequence from byte `b0` followed by `rest`, returning
the scalar (or U+FFFD on error) and the unconsumed remainder, modelling
`buffer.toString("utf-8")`.  Valid sequences decode exactly; the error
branches (which no theorem below exercises) emit U+FFFD and resynchronise. -/
def utf8DecodeOne (b0 : Nat) (rest : List Nat) : Char × List Nat :=
  if b0 < 0x80 then (Char.ofNat b0, rest)
  else if b0 < 0xC0 then (replacementChar, rest)
  else if b0 < 0xE0 then
    match rest with
    | b1 :: r =>
      if isContByte b1 then (Char.ofNat ((b0 - 0xC0) * 64 + (b1 - 0x80)), r)
      else (replacementChar, b1 :: r)
    | [] => (replacementChar, [])
  else if b0 < 0xF0 then
    match rest with
    | b1 :: b2 :: r =>
      if isContByte b1 ∧ isContByte b2 then
        (Char.ofNat ((b0 - 0xE0) * 4096 + (b1 - 0x80) * 64 + (b2 - 0x80)), r)
      else (replacementChar, b1 :: b2 :: r)
    | r => (replacementChar, r)
  else
    match rest with
    | b1 :: b2 :: b3 :: r =>
      if isContByte b1 ∧ isContByte b2 ∧ isContByte b3 then
        (Char.ofNat ((b0 - 0xF0) * 262144 + (b1 - 0x80) * 4096 + (b2 - 0x80) * 64 + (b3 - 0x80)), r)
      else (replacementChar, b1 :: b2 :: b3 :: r)
    | r => (replacementChar, r)

theorem utf8DecodeOne_rest_le (b0 : Nat) (rest : List Nat) :
    (utf8DecodeOne b0 rest).2.length ≤ rest.length := by
  unfold utf8DecodeOne
  split
  · simp
  · split
    · simp
    · split
      · split
        · split <;> simp
        · simp
      · split
        · split
          · split
            · simp; omega
            · simp
          · simp
        · split
          · split
            · simp; omega
            · simp
          · simp

/-- The decode loop, driven by fuel so that it stays structurally
recursive; `utf8Decode` supplies fuel `l.length`, which always suffices. -/
def utf8DecodeLoop : Nat → List Nat → List Char
  | 0, _ => []
  | _, [] => []
  | fuel + 1, b0 :: rest =>
    (utf8DecodeOne b0 rest).1 :: utf8DecodeLoop fuel (utf8DecodeOne b0 rest).2

/-- UTF-8 decoding with replacement on error (`buffer.toString("utf-8")`). -/
def utf8Decode (l : List Nat) : List Char := utf8DecodeLoop l.length l

theorem utf8DecodeLoop_fuel :
    ∀ (fuel : Nat) (l : List Nat), l.length ≤ fuel → utf8DecodeLoop fuel l = utf8Decode l := by
  intro fuel
  induction fuel using Nat.strong_induction_on with
  | _ fuel ih =>
    intro l hl
    match fuel, l with
    | 0, l =>
      have : l = [] := List.eq_nil_of_length_eq_zero (by omega)
      subst this
      rfl
    | n + 1, [] => rfl
    | n + 1, b0 :: rest =>
      have hr := utf8DecodeOne_rest_le b0 rest
      simp only [List.length_cons] at hl
      show (utf8DecodeOne b0 rest).1 :: utf8DecodeLoop n (utf8DecodeOne b0 rest).2 = _
      rw [ih n (by omega) _ (by omega)]
      show _ = utf8DecodeLoop (rest.length + 1) (b0 :: rest)
      show _ = (utf8DecodeOne b0 rest).1 :: utf8DecodeLoop rest.length (utf8DecodeOne b0 rest).2
      rw [ih rest.length (by omega) _ hr]

theorem char_toNat_lt (c : Char) : c.toNat < 1114112 := by
  have h := c.valid
  simp [UInt32.isValidChar, Nat.isValidChar] at h
  have h2 : c.toNat = c.val.toNat := rfl
  rcases h with h | h <;> omega

theorem utf8EncodeChar_lt (c : Char) : ∀ b ∈ utf8EncodeChar c, b < 256 := by
  have hv := char_toNat_lt c
  intro b hb
  by_cases h1 : c.toNat < 0x80
  · simp [utf8EncodeChar, h1] at hb; omega
  · by_cases h2 : c.toNat < 0x800
    · simp [utf8EncodeChar, h1, h2] at hb; rcases hb with rfl | rfl <;> omega
    · by_cases h3 : c.toNat < 0x10000
      · simp [utf8EncodeChar, h1, h2, h3] at hb; rcases hb with rfl | rfl | rfl <;> omega
      · simp [utf8EncodeChar, h1, h2, h3] at hb; rcases hb with rfl | rfl | rfl | rfl <;> omega

theorem utf8Encode_lt (s : List Char) : ∀ b ∈ utf8Encode s, b < 256 := by
  induction s with
  | nil => simp [utf8Encode]
  | cons c rest ih =>
    intro b hb
    simp only [utf8Encode, List.mem_append] at hb
    rcases hb with hb | hb
    · exact utf8EncodeChar_lt c b hb
    · exact ih b hb

theorem utf8Decode_cons (b0 : Nat) (rest : List Nat) :
    utf8Decode (b0 :: rest) =
      (utf8DecodeOne b0 rest).1 :: utf8Decode (utf8DecodeOne b0 rest).2 := by
  show utf8DecodeLoop (rest.length + 1) (b0 :: rest) = _
  show (utf8DecodeOne b0 rest).1 :: utf8DecodeLoop rest.length (utf8DecodeOne b0 rest).2 = _
  rw [utf8DecodeLoop_fuel rest.length _ (utf8DecodeOne_rest_le b0 rest)]

theorem utf8Decode_encodeChar (c : Char) (rest : List Nat) :
    utf8Decode (utf8EncodeChar c ++ rest) = c :: utf8Decode rest := by
  have hv := char_toNat_lt c
  have hofn : ∀ m : Nat, m = c.toNat → Char.ofNat m = c := by
    rintro m rfl
    exact Char.ofNat_toNat c
  by_cases h1 : c.toNat < 0x80
  · have e2 : utf8EncodeChar c ++ rest = c.toNat :: rest := by
      simp [utf8EncodeChar, h1]
    have hone : utf8DecodeOne c.toNat rest = (c, rest) := by
      simp [utf8DecodeOne, h1, Char.ofNat_toNat]
    rw [e2, utf8Decode_cons, hone]
  · by_cases h2 : c.toNat < 0x800
    · have e2 : utf8EncodeChar c ++ rest =
          (0xC0 + c.toNat / 64) :: (0x80 + c.toNat % 64) :: rest := by
        simp [utf8EncodeChar, h1, h2]
      have d1 : ¬ (0xC0 + c.toNat / 64 < 0x80) := by omega
      have d2 : ¬ (0xC0 + c.toNat / 64 < 0xC0) := by omega
      have d3 : 0xC0 + c.toNat / 64 < 0xE0 := by omega
      have d4 : isContByte (0x80 + c.toNat % 64) = true := by simp [isContByte]; omega
      have hone : utf8DecodeOne (0xC0 + c.toNat / 64) ((0x80 + c.toNat % 64) :: rest) =
          (c, rest) := by
        simp [utf8DecodeOne, d1, d2, d3, d4]
        exact hofn _ (by omega)
      rw [e2, utf8Decode_cons, hone]
    · by_cases h3 : c.toNat < 0x10000
      · have e2 : utf8EncodeChar c ++ rest = (0xE0 + c.toNat / 4096) ::
            (0x80 + c.toNat / 64 % 64) :: (0x80 + c.toNat % 64) :: rest := by
          simp [utf8EncodeChar, h1, h2, h3]
        have d1 : ¬ (0xE0 + c.toNat / 4096 < 0x80) := by omega
        have d2 : ¬ (0xE0 + c.toNat / 4096 < 0xC0) := by omega
        have d3 : ¬ (0xE0 + c.toNat / 4096 < 0xE0) := by omega
        have d4 : 0xE0 + c.toNat / 4096 < 0xF0 := by omega
        have d5 : isContByte (0x80 + c.toNat / 64 % 64) = true := by simp [isContByte]; omega
        have d6 : isContByte (0x80 + c.toNat % 64) = true := by simp [isContByte]; omega
        have hone : utf8DecodeOne (0xE0 + c.toNat / 4096)
            ((0x80 + c.toNat / 64 % 64) :: (0x80 + c.toNat % 64) :: rest) = (c, rest) := by
          simp [utf8DecodeOne, d1, d2, d3, d4, d5, d6]
          exact hofn _ (by omega)
        rw [e2, utf8Decode_cons, hone]
      · have e2 : utf8EncodeChar c ++ rest = (0xF0 + c.toNat / 262144) ::
            (0x80 + c.toNat / 4096 % 64) :: (0x80 + c.toNat / 64 % 64) ::
            (0x80 + c.toNat % 64) :: rest := by
          simp [utf8EncodeChar, h1, h2, h3]
        have d1 : ¬ (0xF0 + c.toNat / 262144 < 0x80) := by omega
        have d2 : ¬ (0xF0 + c.toNat / 262144 < 0xC0) := by omega
        have d3 : ¬ (0xF0 + c.toNat / 262144 < 0xE0) := by omega
        have d4 : ¬ (0xF0 + c.toNat / 262144 < 0xF0) := by omega
        have d5 : isContByte (0x80 + c.toNat / 4096 % 64) = true := by simp [isContByte]; omega
        have d6 : isContByte (0x80 + c.toNat / 64 % 64) = true := by simp [isContByte]; omega
        have d7 : isContByte (0x80 + c.toNat % 64) = true := by simp [isContByte]; omega
        have hone : utf8DecodeOne (0xF0 + c.toNat / 262144)
            ((0x80 + c.toNat / 4096 % 64) :: (0x80 + c.toNat / 64 % 64) ::
              (0x80 + c.toNat % 64) :: rest) = (c, rest) := by
          simp [utf8DecodeOne, d1, d2, d3, d4, d5, d6, d7]
          exact hofn _ (by omega)
        rw [e2, utf8Decode_cons, hone]

theorem utf8_roundtrip (s : List Char) : utf8Decode (utf8Encode s) = s := by
  induction s with
  | nil => rfl
  | cons c rest ih => rw [utf8Encode, utf8Decode_encodeChar, ih]

-- ── JavaScript string primitives ───────────────────────────────────────────

/-- `String.prototype.startsWith` on the character-list model. -/
def startsWithList (p l : List Char) : Bool := p.isPrefixOf l

/-- `String.prototype.endsWith` on the character-list model. -/
def endsWithList (p l : List Char) : Bool := p.isSuffixOf l

/-- `String.prototype.includes` on the character-list model. -/
def containsSub (l sub : List Char) : Bool := l.tails.any fun t => startsWithList sub t

/-- `String.prototype.trimEnd`. -/
def trimEndJs (l : List Char) : List Char := (l.reverse.dropWhile jsWhitespace).reverse

/-- `String.prototype.trim`. -/
def trimJs (l : List Char) : List Char := (trimEndJs l).dropWhile jsWhitespace

/-- `String.prototype.split("\n")`. -/
def splitNl : List Char → List (List Char)
  | [] => [[]]
  | c :: r =>
    match splitNl r with
    | [] => [[]]
    | s :: ss => if c = '\n' then [] :: s :: ss else (c :: s) :: ss

/-- `Array.prototype.join("\n")`. -/
def joinNl : List (List Char) → List Char
  | [] => []
  | [x] => x
  | x :: y :: rest => x ++ '\n' :: joinNl (y :: rest)

/-- Index of the first occurrence of a character, if any. -/
def idxOfChar? (l : List Char) (c : Char) : Option Nat :=
  match l with
  | [] => none
  | a :: r => if a = c then some 0 else (idxOfChar? r c).map (· + 1)

/-- `String.prototype.indexOf` for a single character (`-1` if absent). -/
def jsIndexOfChar (l : List Char) (c : Char) : Int :=
  match idxOfChar? l c with
  | some i => (i : Int)
  | none => -1

/-- `String.prototype.lastIndexOf` for a single character (`-1` if absent):
the last occurrence is the first occurrence in the reversed string. -/
def jsLastIndexOfChar (l : List Char) (c : Char) : Int :=
  match idxOfChar? l.reverse c with
  | some i => ((l.length - 1 - i : Nat) : Int)
  | none => -1

/-- Decimal rendering of a number (JS template-literal interpolation). -/
def natToStr (n : Nat) : List Char := Nat.toDigits 10 n

theorem startsWithList_iff {p l : List Char} : startsWithList p l = true ↔ p <+: l :=
  List.isPrefixOf_iff_prefix

-- ── URL codec used by the route (source: `makeProxyUrl`, `handleResourceProxy`) ──

/-- `Buffer.from(s, "utf-8").toString("base64url")`. -/
def bufferFromUtf8ToBase64url (s : List Char) : List Char := base64urlEncode (utf8Encode s)

/-- `Buffer.from(s, "base64url").toString("utf-8")`.  Total: Node's
base64url decoder is forgiving and never throws on string input. -/
def bufferFromBase64urlToUtf8 (s : List Char) : List Char := utf8Decode (base64urlDecode s)

theorem buffer_url_roundtrip (u : List Char) :
    bufferFromBase64urlToUtf8 (bufferFromUtf8ToBase64url u) = u := by
  unfold bufferFromBase64urlToUtf8 bufferFromUtf8ToBase64url
  rw [base64url_roundtrip (utf8Encode_lt u), utf8_roundtrip]

/-- Claim C3: decoding the token produced by encoding any UTF-8 string
`u` (UTF-8 bytes to unpadded base64url, as `makeProxyUrl` does) back to a
string (as `handleResourceProxy` does) returns `u`. -/
theorem claim3_url_codec_roundtrip (u : List Char) :
    bufferFromBase64urlToUtf8 (bufferFromUtf8ToBase64url u) = u :=
  buffer_url_roundtrip u

-- ── URL resolution (source: `resolveUrl`, `getBaseUrl`) ────────────────────

/-- The pieces of `new URL(u)` that the source reads. -/
structure JsURL where
  protocol : List Char
  host : List Char
  deriving DecidableEq

/-- Partial model of the WHATWG `new URL` constructor, restricted to what
the source consumes (`protocol`, `host`, `origin`): absolute `http(s)`
URLs with a nonempty authority parse; anything else throws (`none`).
Host normalisation (lowercasing, default-port elision, userinfo) is not
modelled; no theorem below depends on it. -/
def jsParseURL (s : List Char) : Option JsURL :=
  if startsWithList (jstr "http://") s then
    let h := (s.drop 7).takeWhile fun c => c ≠ '/' ∧ c ≠ '?' ∧ c ≠ '#'
    if h.isEmpty then none else some ⟨jstr "http:", h⟩
  else if startsWithList (jstr "https://") s then
    let h := (s.drop 8).takeWhile fun c => c ≠ '/' ∧ c ≠ '?' ∧ c ≠ '#'
    if h.isEmpty then none else some ⟨jstr "https:", h⟩
  else none

/-- Source `resolveUrl(uri, baseUrl)`. -/
def resolveUrl (uri baseUrl : List Char) : List Char :=
  if startsWithList (jstr "http://") uri || startsWithList (jstr "https://") uri then uri
  else if startsWithList (jstr "//") uri then jstr "https:" ++ uri
  else if startsWithList (jstr "/") uri then
    match jsParseURL baseUrl with
    | some u => u.protocol ++ jstr "//" ++ u.host ++ uri
    | none => baseUrl ++ uri
  else baseUrl ++ uri

/-- Source `getBaseUrl(fullUrl)`. -/
def getBaseUrl (fullUrl : List Char) : List Char :=
  let questionIdx := jsIndexOfChar fullUrl '?'
  let pathPart := if questionIdx > 0 then fullUrl.take questionIdx.toNat else fullUrl
  let lastSlash := jsLastIndexOfChar pathPart '/'
  if lastSlash > 8 then pathPart.take (lastSlash.toNat + 1) else pathPart ++ jstr "/"

/-- Whether a string starts with `http://` or `https://`. -/
def startsWithHttpUrl (s : List Char) : Bool :=
  startsWithList (jstr "http://") s || startsWithList (jstr "https://") s

-- ── Playlist rewriting (source: `rewritePlaylist`, `makeProxyUrl`) ─────────

/-- Source `makeProxyUrl(uri, baseUrl, proxyOrigin, headersParam)`. -/
def makeProxyUrl (uri baseUrl proxyOrigin : List Char) (headersParam : Option (List Char)) :
    List Char :=
  let absolute := resolveUrl uri baseUrl
  let encoded := bufferFromUtf8ToBase64url absolute
  let base := proxyOrigin ++ jstr "/api/proxy/s?url=" ++ encoded
  match headersParam with
  | some h => base ++ jstr "&h=" ++ h
  | none => base

/-- One attempted match of the JS regex `/URI\s*=\s*"([^"]+)"/gi` at the
head of the list: the three letters `URI` (case-insensitive), optional
whitespace, `=`, optional whitespace, `"`, one or more non-quote
characters (captured), `"`.  On success, the captured URI and the suffix
after the closing quote. -/
def matchURIBody (r : List Char) : Option (List Char × List Char) :=
  let t1 := r.dropWhile jsWhitespace
  if t1.head? = some '=' then
    let t2 := t1.tail.dropWhile jsWhitespace
    if t2.head? = some '"' then
      let r4 := t2.tail
      let uri := r4.takeWhile fun c => c ≠ '"'
      let after := r4.dropWhile fun c => c ≠ '"'
      if after.head? = some '"' ∧ ¬ uri.isEmpty then some (uri, after.tail)
      else none
    else none
  else none

/-- See `matchURIBody`; this wrapper checks the leading `URI` letters. -/
def matchURIAt : List Char → Option (List Char × List Char)
  | c1 :: c2 :: c3 :: r =>
    if (c1 = 'U' ∨ c1 = 'u') ∧ (c2 = 'R' ∨ c2 = 'r') ∧ (c3 = 'I' ∨ c3 = 'i') then
      matchURIBody r
    else none
  | _ => none

/-- One attempted match of the test regex `/URI\s*=\s*"/i` at the head of
the list (`RegExp.prototype.test` needs no capture or closing quote). -/
def testURIAt : List Char → Bool
  | c1 :: c2 :: c3 :: r =>
    if (c1 = 'U' ∨ c1 = 'u') ∧ (c2 = 'R' ∨ c2 = 'r') ∧ (c3 = 'I' ∨ c3 = 'i') then
      let t1 := r.dropWhile jsWhitespace
      if t1.head? = some '=' then
        let t2 := t1.tail.dropWhile jsWhitespace
        decide (t2.head? = some '"')
      else false
    else false
  | _ => false

/-- `/URI\s*=\s*"/i.test(line)`: some position of the line matches. -/
def hasURIPattern (l : List Char) : Bool := l.tails.any testURIAt

/-- Global regex replacement loop for
`line.replace(/URI\s*=\s*"([^"]+)"/gi, (_, uri) => 'URI="' + f(uri) + '"')`:
scan left to right, substitute each non-overlapping match, continue after
it.  Driven by fuel so that it stays structurally recursive;
`replaceURIAll` supplies fuel `l.length`, which always suffices. -/
def replaceURILoop (f : List Char → List Char) : Nat → List Char → List Char
  | 0, l => l
  | _, [] => []
  | fuel + 1, c :: r =>
    match matchURIAt (c :: r) with
    | some (uri, rest) => jstr "URI=\"" ++ f uri ++ '"' :: replaceURILoop f fuel rest
    | none => c :: replaceURILoop f fuel r

/-- `line.replace(/URI\s*=\s*"([^"]+)"/gi, (_, uri) => 'URI="' + f(uri) + '"')`. -/
def replaceURIAll (f : List Char → List Char) (l : List Char) : List Char :=
  replaceURILoop f l.length l

/-- Source `rewritePlaylist`, with the emitted lines kept as a list
(the source pushes onto `result` and joins with `"\n"` at the end). -/
def rewriteLines (content baseUrl proxyOrigin : List Char) (headersParam : Option (List Char)) :
    List (List Char) :=
  (splitNl content).map fun rawLine =>
    let line := trimEndJs rawLine
    if startsWithList (jstr "#") line ∧ hasURIPattern line then
      replaceURIAll (fun uri => makeProxyUrl uri baseUrl proxyOrigin headersParam) line
    else if startsWithList (jstr "#") line ∨ (trimJs line).length = 0 then
      line
    else
      makeProxyUrl (trimJs line) baseUrl proxyOrigin headersParam

/-- Source `rewritePlaylist(content, baseUrl, proxyOrigin, headersParam)`. -/
def rewritePlaylist (content baseUrl proxyOrigin : List Char)
    (headersParam : Option (List Char)) : List Char :=
  joinNl (rewriteLines content baseUrl proxyOrigin headersParam)

-- ── String-primitive lemmas ────────────────────────────────────────────────

theorem splitNl_ne_nil (l : List Char) : splitNl l ≠ [] := by
  match l with
  | [] => simp [splitNl]
  | c :: r =>
    rw [splitNl]
    match splitNl r with
    | [] => simp
    | s :: ss =>
      by_cases h : c = '\n' <;> simp [h]

theorem splitNl_mem_no_nl (l : List Char) : ∀ x ∈ splitNl l, '\n' ∉ x := by
  induction l with
  | nil => simp [splitNl]
  | cons c r ih =>
    rw [splitNl]
    match hs : splitNl r with
    | [] => simp
    | s :: ss =>
      rw [hs] at ih
      by_cases h : c = '\n'
      · simp only [h, if_pos]
        intro x hx
        simp only [List.mem_cons] at hx
        rcases hx with rfl | rfl | hx
        · simp
        · exact ih x (by simp)
        · exact ih x (by simp [hx])
      · simp only [h, if_neg, not_false_eq_true]
        intro x hx
        simp only [List.mem_cons] at hx
        rcases hx with rfl | hx
        · have hns : '\n' ∉ s := ih s (by simp)
          simp only [List.mem_cons, not_or]
          exact ⟨Ne.symm h, hns⟩
        · exact ih x (by simp [hx])

theorem splitNl_no_nl (x : List Char) (hx : '\n' ∉ x) : splitNl x = [x] := by
  induction x with
  | nil => rfl
  | cons c r ih =>
    simp only [List.mem_cons, not_or] at hx
    rw [splitNl, ih hx.2]
    simp [Ne.symm hx.1]

theorem splitNl_append_nl (x rest : List Char) (hx : '\n' ∉ x) :
    splitNl (x ++ '\n' :: rest) = x :: splitNl rest := by
  induction x with
  | nil =>
    simp only [List.nil_append]
    rw [splitNl]
    match hs : splitNl rest with
    | [] => exact absurd hs (splitNl_ne_nil rest)
    | s :: ss => simp
  | cons c r ih =>
    simp only [List.mem_cons, not_or] at hx
    simp only [List.cons_append]
    rw [splitNl, ih hx.2]
    simp [Ne.symm hx.1]

theorem splitNl_joinNl (ls : List (List Char)) (hne : ls ≠ [])
    (h : ∀ x ∈ ls, '\n' ∉ x) : splitNl (joinNl ls) = ls := by
  induction ls with
  | nil => exact absurd rfl hne
  | cons x rest ih =>
    match rest with
    | [] => exact splitNl_no_nl x (h x (by simp))
    | y :: rest' =>
      rw [joinNl, splitNl_append_nl x _ (h x (by simp))]
      rw [ih (by simp) (fun z hz => h z (by simp [hz]))]

theorem dropWhile_self_idem (p : Char → Bool) (x : List Char) :
    (x.dropWhile p).dropWhile p = x.dropWhile p := by
  induction x with
  | nil => rfl
  | cons a t ih =>
    by_cases hp : p a
    · simp [List.dropWhile_cons, hp, ih]
    · simp [List.dropWhile_cons, hp]

theorem dropWhile_head_not (p : Char → Bool) (x : List Char) :
    ∀ c, (x.dropWhile p).head? = some c → p c = false := by
  induction x with
  | nil => simp [List.dropWhile]
  | cons a t ih =>
    intro c hc
    by_cases hp : p a
    · rw [List.dropWhile_cons, if_pos hp] at hc
      exact ih c hc
    · rw [List.dropWhile_cons, if_neg hp] at hc
      simp only [List.head?_cons, Option.some.injEq] at hc
      subst hc
      simpa using hp

theorem trimEndJs_idem (l : List Char) : trimEndJs (trimEndJs l) = trimEndJs l := by
  simp [trimEndJs, List.reverse_reverse, dropWhile_self_idem]

theorem trimEndJs_sublist (l : List Char) : List.Sublist (trimEndJs l) l := by
  have h := (List.dropWhile_sublist (l := l.reverse) (p := jsWhitespace)).reverse
  simpa [trimEndJs] using h

theorem trimEndJs_getLast_not_ws (l : List Char) :
    ∀ c, (trimEndJs l).getLast? = some c → jsWhitespace c = false := by
  intro c hc
  rw [trimEndJs, List.getLast?_reverse] at hc
  exact dropWhile_head_not _ _ c hc

theorem trimJs_nil_of (l : List Char) (h : trimJs (trimEndJs l) = []) : trimEndJs l = [] := by
  rw [trimJs, trimEndJs_idem] at h
  match hl : trimEndJs l with
  | [] => rfl
  | c :: r =>
    exfalso
    rw [hl] at h
    have hlast : (trimEndJs l).getLast? = some ((c :: r).getLast (by simp)) := by
      rw [hl]; exact List.getLast?_eq_getLast _ _
    have hnw := trimEndJs_getLast_not_ws l _ hlast
    have hmem : (c :: r).getLast (by simp) ∈ c :: r := List.getLast_mem _
    have hall : ∀ x ∈ c :: r, jsWhitespace x = true := by
      rw [← List.dropWhile_eq_nil_iff]
      exact h
    have := hall _ hmem
    rw [this] at hnw
    exact Bool.noConfusion hnw

-- ── Rewriter lemmas ────────────────────────────────────────────────────────

theorem matchURIBody_some {r uri rest : List Char}
    (h : matchURIBody r = some (uri, rest)) : rest <:+ r ∧ rest.length + 3 ≤ r.length + 2 := by
  unfold matchURIBody at h
  by_cases h1 : (r.dropWhile jsWhitespace).head? = some '='
  · rw [if_pos h1] at h
    by_cases h2 : (((r.dropWhile jsWhitespace).tail.dropWhile jsWhitespace)).head? = some '"'
    · rw [if_pos h2] at h
      by_cases h3 : (((r.dropWhile jsWhitespace).tail.dropWhile jsWhitespace).tail.dropWhile
          (fun c => c ≠ '"')).head? = some '"' ∧
          ¬ (((r.dropWhile jsWhitespace).tail.dropWhile jsWhitespace).tail.takeWhile
            (fun c => c ≠ '"')).isEmpty
      · rw [if_pos h3] at h
        simp only [Option.some.injEq, Prod.mk.injEq] at h
        obtain ⟨rfl, rfl⟩ := h
        set t1 := r.dropWhile jsWhitespace with ht1
        set t2 := t1.tail.dropWhile jsWhitespace with ht2
        set r4 := t2.tail with hr4
        set after := r4.dropWhile (fun c => c ≠ '"') with hafter
        have sA : after.tail <:+ after := List.tail_suffix after
        have sB : after <:+ r4 := List.dropWhile_suffix _
        have sC : r4 <:+ t2 := List.tail_suffix t2
        have sD : t2 <:+ t1.tail := List.dropWhile_suffix _
        have sE : t1.tail <:+ t1 := List.tail_suffix t1
        have sF : t1 <:+ r := List.dropWhile_suffix _
        have hsuf : after.tail <:+ r :=
          ((((sA.trans sB).trans sC).trans sD).trans sE).trans sF
        refine ⟨hsuf, ?_⟩
        -- the match consumed at least `="x"` beyond `after.tail`, but the
        -- stated bound only needs the one-character steps made explicit
        have l1 : after.tail.length + 1 ≤ after.length := by
          have : after ≠ [] := by
            intro he
            rw [he] at h3
            simp at h3
          match after, this with
          | a :: t, _ => simp
        have l2 : after.length ≤ r4.length := sB.sublist.length_le
        have l3 : r4.length + 1 ≤ t2.length := by
          have : t2 ≠ [] := by
            intro he
            rw [he] at h2
            simp at h2
          match t2, this with
          | a :: t, _ => simp [hr4]
        have l4 : t2.length ≤ t1.tail.length := sD.sublist.length_le
        have l5 : t1.tail.length + 1 ≤ t1.length := by
          have : t1 ≠ [] := by
            intro he
            rw [he] at h1
            simp at h1
          match t1, this with
          | a :: t, _ => simp
        have l6 : t1.length ≤ r.length := sF.sublist.length_le
        omega
      · rw [if_neg h3] at h
        exact absurd h (by simp)
    · rw [if_neg h2] at h
      exact absurd h (by simp)
  · rw [if_neg h1] at h
    exact absurd h (by simp)

theorem matchURIAt_some {l uri rest : List Char} (h : matchURIAt l = some (uri, rest)) :
    rest <:+ l ∧ rest.length + 3 ≤ l.length := by
  match l with
  | [] => simp [matchURIAt] at h
  | [c1] => simp [matchURIAt] at h
  | [c1, c2] => simp [matchURIAt] at h
  | c1 :: c2 :: c3 :: r =>
    rw [matchURIAt] at h
    by_cases hc : (c1 = 'U' ∨ c1 = 'u') ∧ (c2 = 'R' ∨ c2 = 'r') ∧ (c3 = 'I' ∨ c3 = 'i')
    · rw [if_pos hc] at h
      obtain ⟨hsuf, hlen⟩ := matchURIBody_some h
      constructor
      · exact hsuf.trans ((List.suffix_cons c3 r).trans
          ((List.suffix_cons c2 (c3 :: r)).trans (List.suffix_cons c1 (c2 :: c3 :: r))))
      · simp only [List.length_cons]
        omega
    · rw [if_neg hc] at h
      exact absurd h (by simp)

theorem matchURIAt_none_head {c : Char} (r : List Char) (h1 : c ≠ 'U') (h2 : c ≠ 'u') :
    matchURIAt (c :: r) = none := by
  match r with
  | [] => rfl
  | [c2] => rfl
  | c2 :: c3 :: r' =>
    rw [matchURIAt, if_neg]
    simp [h1, h2]

theorem replaceURILoop_zero (f : List Char → List Char) (l : List Char) :
    replaceURILoop f 0 l = l := by
  rw [replaceURILoop]

theorem replaceURILoop_nil (f : List Char → List Char) (fuel : Nat) :
    replaceURILoop f fuel [] = [] := by
  match fuel with
  | 0 => rfl
  | n + 1 => rw [replaceURILoop]; simp

theorem replaceURILoop_fuel (f : List Char → List Char) :
    ∀ (fuel : Nat) (l : List Char), l.length ≤ fuel →
      replaceURILoop f fuel l = replaceURIAll f l := by
  intro fuel
  induction fuel using Nat.strong_induction_on with
  | _ fuel ih =>
    intro l hl
    match fuel, l with
    | 0, l =>
      have : l = [] := List.eq_nil_of_length_eq_zero (by omega)
      subst this
      rfl
    | n + 1, [] => rfl
    | n + 1, c :: r =>
      simp only [List.length_cons] at hl
      cases hm : matchURIAt (c :: r) with
      | some pr =>
        obtain ⟨uri, rest⟩ := pr
        obtain ⟨hsuf, hlen⟩ := matchURIAt_some hm
        simp only [List.length_cons] at hlen
        simp only [replaceURIAll, List.length_cons, replaceURILoop, hm]
        rw [ih n (by omega) rest (by omega), ih r.length (by omega) rest (by omega)]
      | none =>
        simp only [replaceURIAll, List.length_cons, replaceURILoop, hm]
        rw [ih n (by omega) r (by omega), ih r.length (by omega) r (by omega)]

theorem replaceURILoop_chars {Q : Char → Prop} (f : List Char → List Char)
    (hf : ∀ uri c, c ∈ f uri → Q c) (hlit : ∀ c ∈ jstr "URI=\"", Q c) (hq : Q '"') :
    ∀ (fuel : Nat) (l : List Char), (∀ c ∈ l, Q c) → ∀ c ∈ replaceURILoop f fuel l, Q c := by
  intro fuel
  induction fuel with
  | zero =>
    intro l hl
    rw [replaceURILoop_zero]
    exact hl
  | succ n ih =>
    intro l hl
    match l with
    | [] =>
      rw [replaceURILoop_nil]
      simp
    | c :: r =>
      cases hm : matchURIAt (c :: r) with
      | some pr =>
        obtain ⟨uri, rest⟩ := pr
        have hrest : ∀ x ∈ rest, Q x := fun x hx =>
          hl x ((matchURIAt_some hm).1.sublist.subset hx)
        simp only [replaceURILoop, hm]
        intro x hx
        simp only [List.mem_append, List.mem_cons] at hx
        rcases hx with (hx | hx) | rfl | hx
        · exact hlit x hx
        · exact hf uri x hx
        · exact hq
        · exact ih rest hrest x hx
      | none =>
        simp only [replaceURILoop, hm]
        intro x hx
        simp only [List.mem_cons] at hx
        rcases hx with rfl | hx
        · exact hl x (by simp)
        · exact ih r (fun y hy => hl y (by simp [hy])) x hx

theorem replaceURIAll_chars {Q : Char → Prop} (f : List Char → List Char) (l : List Char)
    (hl : ∀ c ∈ l, Q c) (hf : ∀ uri c, c ∈ f uri → Q c)
    (hlit : ∀ c ∈ jstr "URI=\"", Q c) (hq : Q '"') :
    ∀ c ∈ replaceURIAll f l, Q c :=
  replaceURILoop_chars f hf hlit hq l.length l hl

theorem replaceURILoop_ne_nil (f : List Char → List Char) (fuel : Nat) (l : List Char)
    (hl : l ≠ []) : replaceURILoop f fuel l ≠ [] := by
  match fuel, l with
  | 0, l =>
    rw [replaceURILoop_zero]
    exact hl
  | n + 1, c :: r =>
    cases hm : matchURIAt (c :: r) with
    | some pr =>
      obtain ⟨uri, rest⟩ := pr
      simp [replaceURILoop, hm, jstr]
    | none => simp [replaceURILoop, hm]

theorem getLast?_cons_of_ne_nil {a : Char} {X : List Char} (h : X ≠ []) :
    (a :: X).getLast? = X.getLast? := by
  match X with
  | [] => exact absurd rfl h
  | y :: ys => rw [List.getLast?_cons_cons]

theorem replaceURILoop_getLast (f : List Char → List Char) :
    ∀ (fuel : Nat) (l : List Char),
      (replaceURILoop f fuel l).getLast? = some '"' ∨
        (replaceURILoop f fuel l).getLast? = l.getLast? := by
  intro fuel
  induction fuel with
  | zero =>
    intro l
    rw [replaceURILoop_zero]
    right
    rfl
  | succ n ih =>
    intro l
    match l with
    | [] =>
      rw [replaceURILoop_nil]
      right
      rfl
    | c :: r =>
      cases hm : matchURIAt (c :: r) with
      | some pr =>
        obtain ⟨uri, rest⟩ := pr
        obtain ⟨hsuf, _⟩ := matchURIAt_some hm
        simp only [replaceURILoop, hm]
        rw [List.getLast?_append_of_ne_nil _ (by simp)]
        match hX : replaceURILoop f n rest with
        | [] => left; rfl
        | y :: ys =>
          rw [getLast?_cons_of_ne_nil (by simp)]
          have hrestne : rest ≠ [] := by
            intro he
            rw [he, replaceURILoop_nil] at hX
            exact List.noConfusion hX
          rcases ih rest with hlast | hlast
          · left
            rw [hX] at hlast
            exact hlast
          · right
            rw [hX] at hlast
            rw [hlast]
            obtain ⟨pre, hpre⟩ := hsuf
            rw [← hpre]
            exact (List.getLast?_append_of_ne_nil _ hrestne).symm
      | none =>
        simp only [replaceURILoop, hm]
        match hr : r with
        | [] =>
          right
          rw [replaceURILoop_nil]
        | y :: ys =>
          have hne : replaceURILoop f n (y :: ys) ≠ [] :=
            replaceURILoop_ne_nil f n _ (by simp)
          rw [getLast?_cons_of_ne_nil hne]
          rcases ih (y :: ys) with hlast | hlast
          · left
            exact hlast
          · right
            rw [hlast, List.getLast?_cons_cons]

theorem replaceURIAll_hash_head (f : List Char → List Char) (r : List Char) :
    replaceURIAll f ('#' :: r) = '#' :: replaceURIAll f r := by
  have hm := matchURIAt_none_head (c := '#') r (by decide) (by decide)
  unfold replaceURIAll
  simp only [List.length_cons, replaceURILoop, hm]

-- ── URL-resolution lemmas ──────────────────────────────────────────────────

theorem jsParseURL_protocol {s : List Char} {u : JsURL} (h : jsParseURL s = some u) :
    u.protocol = jstr "http:" ∨ u.protocol = jstr "https:" := by
  unfold jsParseURL at h
  by_cases h1 : startsWithList (jstr "http://") s = true
  · rw [if_pos h1] at h
    dsimp only at h
    split at h
    · exact absurd h (by simp)
    · simp only [Option.some.injEq] at h
      subst h
      left
      rfl
  · rw [if_neg h1] at h
    by_cases h2 : startsWithList (jstr "https://") s = true
    · rw [if_pos h2] at h
      dsimp only at h
      split at h
      · exact absurd h (by simp)
      · simp only [Option.some.injEq] at h
        subst h
        right
        rfl
    · rw [if_neg h2] at h
      exact absurd h (by simp)

theorem resolveUrl_startsWithHttp (uri base : List Char)
    (hb : startsWithHttpUrl base = true) :
    startsWithHttpUrl (resolveUrl uri base) = true := by
  have happend : ∀ p s t : List Char, p <+: s → p <+: s ++ t := by
    intro p s t hp
    exact hp.trans (List.prefix_append s t)
  have hbp : jstr "http://" <+: base ∨ jstr "https://" <+: base := by
    simp only [startsWithHttpUrl, Bool.or_eq_true, startsWithList_iff] at hb
    exact hb
  unfold resolveUrl
  by_cases h1 : (startsWithList (jstr "http://") uri || startsWithList (jstr "https://") uri) =
      true
  · rw [if_pos h1]
    exact h1
  · rw [if_neg h1]
    by_cases h2 : startsWithList (jstr "//") uri = true
    · rw [if_pos h2]
      obtain ⟨t, ht⟩ := startsWithList_iff.mp h2
      simp only [startsWithHttpUrl, Bool.or_eq_true, startsWithList_iff]
      right
      refine ⟨t, ?_⟩
      rw [show jstr "https://" = jstr "https:" ++ jstr "//" from rfl, List.append_assoc, ht]
    · rw [if_neg h2]
      by_cases h3 : startsWithList (jstr "/") uri = true
      · rw [if_pos h3]
        cases hu : jsParseURL base with
        | some u =>
          simp only [startsWithHttpUrl, Bool.or_eq_true, startsWithList_iff]
          rcases jsParseURL_protocol hu with hp | hp
          · left
            rw [hp, show jstr "http://" = jstr "http:" ++ jstr "//" from rfl,
              List.append_assoc, List.append_assoc]
            exact List.prefix_append _ _
          · right
            rw [hp, show jstr "https://" = jstr "https:" ++ jstr "//" from rfl,
              List.append_assoc, List.append_assoc]
            exact List.prefix_append _ _
        | none =>
          simp only [startsWithHttpUrl, Bool.or_eq_true, startsWithList_iff]
          rcases hbp with hp | hp
          · exact Or.inl (happend _ _ _ hp)
          · exact Or.inr (happend _ _ _ hp)
      · rw [if_neg h3]
        simp only [startsWithHttpUrl, Bool.or_eq_true, startsWithList_iff]
        rcases hbp with hp | hp
        · exact Or.inl (happend _ _ _ hp)
        · exact Or.inr (happend _ _ _ hp)

-- ── makeProxyUrl shape / character lemmas ──────────────────────────────────

theorem makeProxyUrl_eq (uri base origin : List Char) (hp : Option (List Char)) :
    makeProxyUrl uri base origin hp =
      origin ++ jstr "/api/proxy/s?url=" ++ bufferFromUtf8ToBase64url (resolveUrl uri base) ++
        (match hp with
         | some h => jstr "&h=" ++ h
         | none => []) := by
  cases hp with
  | none => simp [makeProxyUrl]
  | some h => simp [makeProxyUrl, List.append_assoc]

theorem makeProxyUrl_mem (uri base origin : List Char) (hp : Option (List Char)) :
    ∀ c ∈ makeProxyUrl uri base origin hp,
      c ∈ origin ∨ (∃ h, hp = some h ∧ c ∈ h) ∨ c ∈ jstr "/api/proxy/s?url=&h" ∨
        ∃ n, n < 64 ∧ c = b64Char n := by
  intro c hc
  rw [makeProxyUrl_eq] at hc
  have htok : ∀ c ∈ bufferFromUtf8ToBase64url (resolveUrl uri base),
      ∃ n, n < 64 ∧ c = b64Char n :=
    base64urlEncode_mem (utf8Encode_lt _)
  cases hp with
  | none =>
    simp only [List.append_nil, List.mem_append] at hc
    rcases hc with (hc | hc) | hc
    · exact Or.inl hc
    · refine Or.inr (Or.inr (Or.inl ?_))
      have : jstr "/api/proxy/s?url=" ⊆ jstr "/api/proxy/s?url=&h" := by decide
      exact this hc
    · exact Or.inr (Or.inr (Or.inr (htok c hc)))
  | some h =>
    simp only [List.mem_append] at hc
    rcases hc with ((hc | hc) | hc) | hc | hc
    · exact Or.inl hc
    · refine Or.inr (Or.inr (Or.inl ?_))
      have : jstr "/api/proxy/s?url=" ⊆ jstr "/api/proxy/s?url=&h" := by decide
      exact this hc
    · exact Or.inr (Or.inr (Or.inr (htok c hc)))
    · refine Or.inr (Or.inr (Or.inl ?_))
      have : jstr "&h=" ⊆ jstr "/api/proxy/s?url=&h" := by decide
      exact this hc
    · exact Or.inr (Or.inl ⟨h, rfl, hc⟩)

-- ── Shape of the rewritten lines ───────────────────────────────────────────

theorem rewriteLines_shape (content base origin : List Char) (hp : Option (List Char)) :
    ∀ x ∈ rewriteLines content base origin hp,
      x = [] ∨ x.head? = some '#' ∨ ∃ uri, x = makeProxyUrl uri base origin hp := by
  intro x hx
  unfold rewriteLines at hx
  simp only [List.mem_map] at hx
  obtain ⟨raw, hraw, rfl⟩ := hx
  by_cases h1 : startsWithList (jstr "#") (trimEndJs raw) = true ∧
      hasURIPattern (trimEndJs raw) = true
  · rw [if_pos h1]
    right
    left
    obtain ⟨t, ht⟩ := startsWithList_iff.mp h1.1
    rw [show jstr "#" = ['#'] from rfl] at ht
    rw [← ht, List.cons_append, List.nil_append, replaceURIAll_hash_head]
    rfl
  · rw [if_neg h1]
    by_cases h2 : startsWithList (jstr "#") (trimEndJs raw) = true ∨
        (trimJs (trimEndJs raw)).length = 0
    · rw [if_pos h2]
      rcases h2 with h2 | h2
      · right
        left
        obtain ⟨t, ht⟩ := startsWithList_iff.mp h2
        rw [show jstr "#" = ['#'] from rfl] at ht
        rw [← ht]
        rfl
      · left
        exact trimJs_nil_of raw (List.length_eq_zero.mp h2)
    · rw [if_neg h2]
      right
      right
      exact ⟨trimJs (trimEndJs raw), rfl⟩

theorem rewriteLines_no_nl (content base origin : List Char) (hp : Option (List Char))
    (horig : '\n' ∉ origin) (hh : ∀ h, hp = some h → '\n' ∉ h) :
    ∀ x ∈ rewriteLines content base origin hp, '\n' ∉ x := by
  intro x hx
  unfold rewriteLines at hx
  simp only [List.mem_map] at hx
  obtain ⟨raw, hraw, rfl⟩ := hx
  have hrawnl : '\n' ∉ raw := splitNl_mem_no_nl content raw hraw
  have hlinenl : ∀ c ∈ trimEndJs raw, c ≠ '\n' := by
    intro c hc heq
    subst heq
    exact hrawnl ((trimEndJs_sublist raw).subset hc)
  have hmk : ∀ uri c, c ∈ makeProxyUrl uri base origin hp → c ≠ '\n' := by
    intro uri c hc
    rcases makeProxyUrl_mem uri base origin hp c hc with hc | ⟨h, hph, hc⟩ | hc | ⟨n, hn, rfl⟩
    · intro heq
      subst heq
      exact horig hc
    · intro heq
      subst heq
      exact hh h hph hc
    · intro heq
      subst heq
      revert hc
      decide
    · exact b64Char_ne_nl n hn
  have of_chars : ∀ y : List Char, (∀ c ∈ y, c ≠ '\n') → '\n' ∉ y := by
    intro y hy hmem
    exact hy '\n' hmem rfl
  by_cases h1 : startsWithList (jstr "#") (trimEndJs raw) = true ∧
      hasURIPattern (trimEndJs raw) = true
  · rw [if_pos h1]
    refine of_chars _ ?_
    exact replaceURIAll_chars _ _ hlinenl hmk (by decide) (by decide)
  · rw [if_neg h1]
    by_cases h2 : startsWithList (jstr "#") (trimEndJs raw) = true ∨
        (trimJs (trimEndJs raw)).length = 0
    · rw [if_pos h2]
      exact of_chars _ hlinenl
    · rw [if_neg h2]
      exact of_chars _ (fun c hc => hmk _ c hc)

theorem rewriteLines_ne_nil (content base origin : List Char) (hp : Option (List Char)) :
    rewriteLines content base origin hp ≠ [] := by
  unfold rewriteLines
  simp only [ne_eq, List.map_eq_nil_iff]
  exact splitNl_ne_nil content

/-- Claim C1: for every playlist body, every base URL beginning with
`http://` or `https://`, every proxy origin and optional headers token
(each free of newlines, as real origins and tokens are), each line of the
playlist rewritten by `rewritePlaylist` that is non-empty and does not
begin with `#` equals `{proxy_origin}/api/proxy/s?url=<tok>`, optionally
followed by `&h=<h>`, where base64url-decoding `<tok>` yields a URL
beginning with `http://` or `https://`. -/
theorem claim1_rewritten_lines_proxied
    (body baseUrl proxyOrigin : List Char) (hp : Option (List Char))
    (hbase : startsWithHttpUrl baseUrl = true)
    (horig : '\n' ∉ proxyOrigin) (hh : ∀ h, hp = some h → '\n' ∉ h) :
    ∀ line ∈ splitNl (rewritePlaylist body baseUrl proxyOrigin hp),
      line ≠ [] → line.head? ≠ some '#' →
      ∃ tok, startsWithHttpUrl (bufferFromBase64urlToUtf8 tok) = true ∧
        (line = proxyOrigin ++ jstr "/api/proxy/s?url=" ++ tok ∨
          ∃ h, hp = some h ∧
            line = proxyOrigin ++ jstr "/api/proxy/s?url=" ++ tok ++ jstr "&h=" ++ h) := by
  intro line hline hne hnh
  rw [rewritePlaylist, splitNl_joinNl _ (rewriteLines_ne_nil body baseUrl proxyOrigin hp)
    (rewriteLines_no_nl body baseUrl proxyOrigin hp horig hh)] at hline
  rcases rewriteLines_shape body baseUrl proxyOrigin hp line hline with rfl | hhead | ⟨uri, rfl⟩
  · exact absurd rfl hne
  · exact absurd hhead hnh
  · refine ⟨bufferFromUtf8ToBase64url (resolveUrl uri baseUrl), ?_, ?_⟩
    · rw [buffer_url_roundtrip]
      exact resolveUrl_startsWithHttp uri baseUrl hbase
    · rw [makeProxyUrl_eq]
      cases hp with
      | none =>
        left
        simp
      | some h =>
        right
        exact ⟨h, rfl, by simp [List.append_assoc]⟩

theorem claim1_rewritten_lines_proxied_witness :
    ∃ tok, startsWithHttpUrl (bufferFromBase64urlToUtf8 tok) = true ∧
      (jstr "http://p/api/proxy/s?url=aHR0cHM6Ly9jZG4uZXhhbXBsZS5jb20vYS9iL3NlZzEudHM" =
          jstr "http://p" ++ jstr "/api/proxy/s?url=" ++ tok ∨
        ∃ h, (none : Option (List Char)) = some h ∧
          jstr "http://p/api/proxy/s?url=aHR0cHM6Ly9jZG4uZXhhbXBsZS5jb20vYS9iL3NlZzEudHM" =
            jstr "http://p" ++ jstr "/api/proxy/s?url=" ++ tok ++ jstr "&h=" ++ h) :=
  claim1_rewritten_lines_proxied (jstr "#EXTM3U\nseg1.ts")
    (jstr "https://cdn.example.com/a/b/") (jstr "http://p") none (by decide) (by decide)
    (by simp)
    (jstr "http://p/api/proxy/s?url=aHR0cHM6Ly9jZG4uZXhhbXBsZS5jb20vYS9iL3NlZzEudHM")
    (by decide) (by decide) (by decide)

-- ── Trailing-whitespace lemmas (claim C10) ─────────────────────────────────

theorem mem_joinNl {c : Char} : ∀ {ls : List (List Char)}, c ∈ joinNl ls →
    c = '\n' ∨ ∃ x ∈ ls, c ∈ x := by
  intro ls
  induction ls with
  | nil => simp [joinNl]
  | cons x rest ih =>
    match rest with
    | [] =>
      intro hc
      right
      exact ⟨x, by simp, hc⟩
    | y :: rest' =>
      intro hc
      have hj : joinNl (x :: y :: rest') = x ++ '\n' :: joinNl (y :: rest') := rfl
      rw [hj] at hc
      simp only [List.mem_append, List.mem_cons] at hc
      rcases hc with hc | rfl | hc
      · right
        exact ⟨x, by simp, hc⟩
      · left
        rfl
      · rcases ih hc with rfl | ⟨z, hz, hcz⟩
        · left
          rfl
        · right
          exact ⟨z, List.mem_cons_of_mem x hz, hcz⟩

theorem resolveUrl_ne_nil (uri base : List Char) (h : uri ≠ []) :
    resolveUrl uri base ≠ [] := by
  unfold resolveUrl
  split
  · exact h
  · split
    · simp [jstr]
    · split
      · split <;> simp [h]
      · simp [h]

theorem utf8EncodeChar_ne_nil (c : Char) : utf8EncodeChar c ≠ [] := by
  unfold utf8EncodeChar
  dsimp only
  split
  · simp
  · split
    · simp
    · split <;> simp

theorem utf8Encode_ne_nil (s : List Char) (h : s ≠ []) : utf8Encode s ≠ [] := by
  match s with
  | c :: rest =>
    rw [utf8Encode]
    simp [utf8EncodeChar_ne_nil c]

theorem base64urlEncode_ne_nil (l : List Nat) (h : l ≠ []) : base64urlEncode l ≠ [] := by
  match l with
  | [a] => simp [base64urlEncode]
  | [a, b] => simp [base64urlEncode]
  | a :: b :: c :: rest => simp [base64urlEncode]

theorem makeProxyUrl_not_ws (uri base origin : List Char) (hp : Option (List Char))
    (horig : ∀ c ∈ origin, jsWhitespace c = false)
    (hh : ∀ h, hp = some h → ∀ c ∈ h, jsWhitespace c = false) :
    ∀ c ∈ makeProxyUrl uri base origin hp, jsWhitespace c = false := by
  intro c hc
  rcases makeProxyUrl_mem uri base origin hp c hc with hc2 | ⟨h, hph, hc2⟩ | hc2 | ⟨n, hn, rfl⟩
  · exact horig c hc2
  · exact hh h hph c hc2
  · have hlit : ∀ d ∈ jstr "/api/proxy/s?url=&h", jsWhitespace d = false := by decide
    exact hlit c hc2
  · exact b64Char_not_ws n hn

theorem makeProxyUrl_getLast_not_ws (uri base origin : List Char) (hp : Option (List Char))
    (huri : uri ≠ [])
    (hh : ∀ h, hp = some h → ∀ c ∈ h, jsWhitespace c = false) :
    ∀ c, (makeProxyUrl uri base origin hp).getLast? = some c → jsWhitespace c = false := by
  intro c hc
  have htokne : bufferFromUtf8ToBase64url (resolveUrl uri base) ≠ [] :=
    base64urlEncode_ne_nil _ (utf8Encode_ne_nil _ (resolveUrl_ne_nil uri base huri))
  have htoklast : ∀ d, (bufferFromUtf8ToBase64url (resolveUrl uri base)).getLast? = some d →
      jsWhitespace d = false := by
    intro d hd
    have hdm : d ∈ bufferFromUtf8ToBase64url (resolveUrl uri base) :=
      List.mem_of_mem_getLast? (by rw [hd]; rfl)
    obtain ⟨n, hn, rfl⟩ := base64urlEncode_mem (utf8Encode_lt _) d hdm
    exact b64Char_not_ws n hn
  rw [makeProxyUrl_eq] at hc
  cases hp with
  | none =>
    rw [List.append_nil, List.getLast?_append_of_ne_nil _ htokne] at hc
    exact htoklast c hc
  | some h =>
    have hstep : (match some h with
        | some h => jstr "&h=" ++ h
        | none => ([] : List Char)) = jstr "&h=" ++ h := rfl
    rw [hstep] at hc
    match h with
    | [] =>
      rw [List.getLast?_append_of_ne_nil _ (by simp [jstr]), List.append_nil] at hc
      rw [show (jstr "&h=").getLast? = some '=' from rfl] at hc
      simp only [Option.some.injEq] at hc
      subst hc
      decide
    | d :: ds =>
      rw [List.getLast?_append_of_ne_nil _ (by simp [jstr]),
        List.getLast?_append_of_ne_nil _ (by simp)] at hc
      have hdm : c ∈ d :: ds := List.mem_of_mem_getLast? (by rw [hc]; rfl)
      exact hh (d :: ds) rfl c hdm

theorem rewriteLines_trimEnd_invariant (body baseUrl proxyOrigin : List Char)
    (hp : Option (List Char)) :
    rewriteLines (joinNl ((splitNl body).map trimEndJs)) baseUrl proxyOrigin hp =
      rewriteLines body baseUrl proxyOrigin hp := by
  have h1 : splitNl (joinNl ((splitNl body).map trimEndJs)) = (splitNl body).map trimEndJs := by
    refine splitNl_joinNl _ ?_ ?_
    · simp only [ne_eq, List.map_eq_nil_iff]
      exact splitNl_ne_nil body
    · intro x hx
      simp only [List.mem_map] at hx
      obtain ⟨raw, hraw, rfl⟩ := hx
      intro hmem
      exact splitNl_mem_no_nl body raw hraw ((trimEndJs_sublist raw).subset hmem)
  unfold rewriteLines
  rw [h1, List.map_map]
  refine List.map_congr_left ?_
  intro raw _
  simp only [Function.comp_apply, trimEndJs_idem]

/-- Claim C10: `rewritePlaylist` is insensitive to trailing whitespace: its
output on the original body equals its output on the body with every line
right-trimmed; no emitted line ends with whitespace or a carriage return
(given an origin and headers token free of whitespace, as real origins
and percent-encoded tokens are); and a body whose lines carry carriage
returns only as trailing characters (a CRLF-separated playlist) yields
output free of carriage returns. -/
theorem claim10_rewrite_trailing_whitespace
    (body baseUrl proxyOrigin : List Char) (hp : Option (List Char))
    (horig : ∀ c ∈ proxyOrigin, jsWhitespace c = false)
    (hh : ∀ h, hp = some h → ∀ c ∈ h, jsWhitespace c = false) :
    rewritePlaylist body baseUrl proxyOrigin hp =
        rewritePlaylist (joinNl ((splitNl body).map trimEndJs)) baseUrl proxyOrigin hp ∧
      (∀ line ∈ splitNl (rewritePlaylist body baseUrl proxyOrigin hp),
        ∀ c, line.getLast? = some c → jsWhitespace c = false) ∧
      ((∀ l ∈ splitNl body, '\r' ∉ trimEndJs l) →
        '\r' ∉ rewritePlaylist body baseUrl proxyOrigin hp) := by
  have hwsnl : jsWhitespace '\n' = true := by decide
  have horignl : '\n' ∉ proxyOrigin := by
    intro hmem
    have := horig '\n' hmem
    rw [hwsnl] at this
    exact Bool.noConfusion this
  have hhnl : ∀ h, hp = some h → '\n' ∉ h := by
    intro h hph hmem
    have := hh h hph '\n' hmem
    rw [hwsnl] at this
    exact Bool.noConfusion this
  refine ⟨?_, ?_, ?_⟩
  · unfold rewritePlaylist
    rw [rewriteLines_trimEnd_invariant]
  · intro line hline c hc
    rw [rewritePlaylist, splitNl_joinNl _ (rewriteLines_ne_nil body baseUrl proxyOrigin hp)
      (rewriteLines_no_nl body baseUrl proxyOrigin hp horignl hhnl)] at hline
    unfold rewriteLines at hline
    simp only [List.mem_map] at hline
    obtain ⟨raw, hraw, rfl⟩ := hline
    by_cases h1 : startsWithList (jstr "#") (trimEndJs raw) = true ∧
        hasURIPattern (trimEndJs raw) = true
    · rw [if_pos h1] at hc
      rcases replaceURILoop_getLast
          (fun uri => makeProxyUrl uri baseUrl proxyOrigin hp) (trimEndJs raw).length
          (trimEndJs raw) with hlast | hlast
      · rw [replaceURIAll] at hc
        rw [hlast] at hc
        simp only [Option.some.injEq] at hc
        subst hc
        decide
      · rw [replaceURIAll] at hc
        rw [hlast] at hc
        exact trimEndJs_getLast_not_ws raw c hc
    · rw [if_neg h1] at hc
      by_cases h2 : startsWithList (jstr "#") (trimEndJs raw) = true ∨
          (trimJs (trimEndJs raw)).length = 0
      · rw [if_pos h2] at hc
        exact trimEndJs_getLast_not_ws raw c hc
      · rw [if_neg h2] at hc
        have huri : trimJs (trimEndJs raw) ≠ [] := by
          intro he
          exact h2 (Or.inr (by rw [he]; rfl))
        exact makeProxyUrl_getLast_not_ws _ baseUrl proxyOrigin hp huri hh c hc
  · intro hcr hmem
    have not_ws_ne_cr : ∀ d : Char, jsWhitespace d = false → d ≠ '\r' := by
      intro d hd heq
      subst heq
      rw [show jsWhitespace '\r' = true from by decide] at hd
      exact Bool.noConfusion hd
    rw [rewritePlaylist] at hmem
    rcases mem_joinNl hmem with heq | ⟨x, hx, hcx⟩
    · exact absurd heq (by decide)
    · unfold rewriteLines at hx
      simp only [List.mem_map] at hx
      obtain ⟨raw, hraw, rfl⟩ := hx
      have hline_cr : ∀ c ∈ trimEndJs raw, c ≠ '\r' := by
        intro c hcm heq
        subst heq
        exact hcr raw hraw hcm
      have hmk_cr : ∀ uri c, c ∈ makeProxyUrl uri baseUrl proxyOrigin hp → c ≠ '\r' :=
        fun uri c hcm => not_ws_ne_cr c (makeProxyUrl_not_ws uri baseUrl proxyOrigin hp
          horig hh c hcm)
      by_cases h1 : startsWithList (jstr "#") (trimEndJs raw) = true ∧
          hasURIPattern (trimEndJs raw) = true
      · rw [if_pos h1] at hcx
        exact replaceURIAll_chars _ _ hline_cr hmk_cr (by decide) (by decide) '\r' hcx rfl
      · rw [if_neg h1] at hcx
        by_cases h2 : startsWithList (jstr "#") (trimEndJs raw) = true ∨
            (trimJs (trimEndJs raw)).length = 0
        · rw [if_pos h2] at hcx
          exact hline_cr '\r' hcx rfl
        · rw [if_neg h2] at hcx
          exact hmk_cr _ '\r' hcx rfl

theorem claim10_rewrite_trailing_whitespace_witness :
    rewritePlaylist (jstr "#EXTM3U\r\nseg1.ts \r\n") (jstr "http://h/a/") (jstr "http://p")
        none =
      rewritePlaylist (joinNl ((splitNl (jstr "#EXTM3U\r\nseg1.ts \r\n")).map trimEndJs))
        (jstr "http://h/a/") (jstr "http://p") none ∧
      (∀ line ∈ splitNl (rewritePlaylist (jstr "#EXTM3U\r\nseg1.ts \r\n") (jstr "http://h/a/")
          (jstr "http://p") none),
        ∀ c, line.getLast? = some c → jsWhitespace c = false) ∧
      ((∀ l ∈ splitNl (jstr "#EXTM3U\r\nseg1.ts \r\n"), '\r' ∉ trimEndJs l) →
        '\r' ∉ rewritePlaylist (jstr "#EXTM3U\r\nseg1.ts \r\n") (jstr "http://h/a/")
          (jstr "http://p") none) :=
  claim10_rewrite_trailing_whitespace (jstr "#EXTM3U\r\nseg1.ts \r\n") (jstr "http://h/a/")
    (jstr "http://p") none (by decide) (by simp)

-- ── Claim C4: relative resolution against the base directory ───────────────

/-- The directory derivation exactly as the claim words it: drop the base
URL's query string, then strip at its last `/` past the authority,
keeping the trailing slash (when the path holds no `/`, the whole URL is
the directory and `/` is appended). -/
def claimDirectory (base : List Char) : List Char :=
  let q := base.takeWhile fun c => c ≠ '?'
  let pre : List Char × List Char :=
    if startsWithList (jstr "http://") q then (jstr "http://", q.drop 7)
    else if startsWithList (jstr "https://") q then (jstr "https://", q.drop 8)
    else ([], q)
  let auth := pre.2.takeWhile fun c => c ≠ '/'
  let path := pre.2.drop auth.length
  match idxOfChar? path.reverse '/' with
  | some i => pre.1 ++ auth ++ path.take (path.length - i)
  | none => q ++ jstr "/"

/-- The directory derivation as the code computes it, worded from the
amended claim: drop the query string (the part from the first `?` on,
when present); when the last `/` of the query-stripped URL sits at string
index greater than 8, cut immediately after it; otherwise append `/`. -/
def amendedDirectory (base : List Char) : List Char :=
  let p := if base.any (fun c => c = '?') then base.takeWhile (fun c => c ≠ '?') else base
  match idxOfChar? p.reverse '/' with
  | some i =>
    if 8 < p.length - 1 - i then p.take (p.length - 1 - i + 1) else p ++ jstr "/"
  | none => p ++ jstr "/"

theorem idxOfChar?_take (ch : Char) :
    ∀ (l : List Char) (i : Nat), idxOfChar? l ch = some i →
      l.take i = l.takeWhile fun c => c ≠ ch := by
  intro l
  induction l with
  | nil => simp [idxOfChar?]
  | cons a r ih =>
    intro i hi
    rw [idxOfChar?] at hi
    by_cases ha : a = ch
    · rw [if_pos ha] at hi
      simp only [Option.some.injEq] at hi
      subst hi
      subst ha
      simp [List.takeWhile_cons]
    · rw [if_neg ha] at hi
      cases hr : idxOfChar? r ch with
      | none => rw [hr] at hi; exact absurd hi (by simp)
      | some j =>
        rw [hr] at hi
        simp only [Option.map_some', Option.some.injEq] at hi
        subst hi
        rw [List.take_succ_cons, List.takeWhile_cons, if_pos (by simpa using ha), ih j hr]

theorem idxOfChar?_none (ch : Char) :
    ∀ l : List Char, idxOfChar? l ch = none →
      (l.takeWhile fun c => c ≠ ch) = l ∧ l.any (fun c => c = ch) = false := by
  intro l
  induction l with
  | nil => simp [idxOfChar?]
  | cons a r ih =>
    intro h
    rw [idxOfChar?] at h
    by_cases ha : a = ch
    · rw [if_pos ha] at h
      exact absurd h (by simp)
    · rw [if_neg ha] at h
      have hr : idxOfChar? r ch = none := by
        cases hr : idxOfChar? r ch with
        | none => rfl
        | some j => rw [hr] at h; exact absurd h (by simp)
      obtain ⟨h1, h2⟩ := ih hr
      constructor
      · rw [List.takeWhile_cons, if_pos (by simpa using ha), h1]
      · simp [ha, h2]

theorem idxOfChar?_some_any (ch : Char) :
    ∀ (l : List Char) (i : Nat), idxOfChar? l ch = some i → l.any (fun c => c = ch) = true := by
  intro l
  induction l with
  | nil => simp [idxOfChar?]
  | cons a r ih =>
    intro i hi
    rw [idxOfChar?] at hi
    by_cases ha : a = ch
    · simp [ha]
    · rw [if_neg ha] at hi
      cases hr : idxOfChar? r ch with
      | none => rw [hr] at hi; exact absurd hi (by simp)
      | some j => simp [ih j hr]

theorem getBaseUrl_eq_amendedDirectory (base : List Char)
    (hbase : startsWithHttpUrl base = true) :
    getBaseUrl base = amendedDirectory base := by
  have hhead : ∃ r, base = 'h' :: r := by
    simp only [startsWithHttpUrl, Bool.or_eq_true, startsWithList_iff] at hbase
    rcases hbase with ⟨t, ht⟩ | ⟨t, ht⟩
    · exact ⟨jstr "ttp://" ++ t, by rw [← ht]; rfl⟩
    · exact ⟨jstr "ttps://" ++ t, by rw [← ht]; rfl⟩
  obtain ⟨r, rfl⟩ := hhead
  have hpath : (if jsIndexOfChar ('h' :: r) '?' > 0 then
      ('h' :: r).take (jsIndexOfChar ('h' :: r) '?').toNat else 'h' :: r) =
      (if ('h' :: r).any (fun c => c = '?') then
        ('h' :: r).takeWhile (fun c => c ≠ '?') else 'h' :: r) := by
    unfold jsIndexOfChar
    cases hq : idxOfChar? ('h' :: r) '?' with
    | none =>
      obtain ⟨-, h2⟩ := idxOfChar?_none '?' _ hq
      rw [h2]
      norm_num
    | some i =>
      have hge : 1 ≤ i := by
        rw [idxOfChar?] at hq
        rw [if_neg (by decide)] at hq
        cases hj : idxOfChar? r '?' with
        | none => rw [hj] at hq; exact absurd hq (by simp)
        | some j =>
          rw [hj] at hq
          simp only [Option.map_some', Option.some.injEq] at hq
          omega
      rw [idxOfChar?_some_any '?' _ i hq]
      rw [if_pos (show ((i : Int) > 0) by omega), if_pos rfl, Int.toNat_natCast]
      exact idxOfChar?_take '?' _ i hq
  unfold getBaseUrl amendedDirectory
  dsimp only
  rw [hpath]
  set p := (if (('h' :: r).any fun c => decide (c = '?')) = true then
    List.takeWhile (fun c => decide (c ≠ '?')) ('h' :: r) else 'h' :: r) with hpdef
  unfold jsLastIndexOfChar
  cases hs : idxOfChar? p.reverse '/' with
  | none =>
    dsimp only
    rw [if_neg (by omega)]
  | some i =>
    dsimp only
    by_cases hgt : 8 < p.length - 1 - i
    · rw [if_pos (show (((p.length - 1 - i : Nat) : Int) > 8) by omega), if_pos hgt,
        Int.toNat_natCast]
    · rw [if_neg (show ¬ (((p.length - 1 - i : Nat) : Int) > 8) by omega), if_neg hgt]

/-- Counterexample to claim C4 as stated: for the absolute base URL
`http://a/b` (a single-character host) and the relative URI `x`, the code
resolves to `http://a/b/x` — `getBaseUrl` only strips at the last `/`
when its index exceeds 8 — while the claim's directory derivation
(strip at the last `/` past the authority) yields `http://a/` and hence
`http://a/x`. -/
theorem claim4_counterexample :
    resolveUrl (jstr "x") (getBaseUrl (jstr "http://a/b")) = jstr "http://a/b/x" ∧
      claimDirectory (jstr "http://a/b") ++ jstr "x" = jstr "http://a/x" ∧
      resolveUrl (jstr "x") (getBaseUrl (jstr "http://a/b")) ≠
        claimDirectory (jstr "http://a/b") ++ jstr "x" :=
  ⟨by decide, by decide, by decide⟩

/-- Claim C4 (amended): for every URI that does not start with `http://`,
`https://`, `//`, or `/`, and every absolute `http(s)` base URL, the
resolved absolute URL equals the base URL's directory concatenated with
the URI, where the directory is derived by dropping the query string and,
when the last `/` of the query-stripped URL sits at string index greater
than 8, stripping at that slash keeping it; otherwise (in particular for
`http://` URLs with a single-character host) appending `/` to the
query-stripped URL. -/
theorem claim4_amended_relative_resolution (uri base : List Char)
    (h1 : startsWithList (jstr "http://") uri = false)
    (h2 : startsWithList (jstr "https://") uri = false)
    (h3 : startsWithList (jstr "//") uri = false)
    (h4 : startsWithList (jstr "/") uri = false)
    (hbase : startsWithHttpUrl base = true) :
    resolveUrl uri (getBaseUrl base) = getBaseUrl base ++ uri ∧
      getBaseUrl base = amendedDirectory base := by
  refine ⟨?_, getBaseUrl_eq_amendedDirectory base hbase⟩
  unfold resolveUrl
  rw [if_neg (by simp [h1, h2]), if_neg (by simp [h3]), if_neg (by simp [h4])]

theorem claim4_amended_relative_resolution_witness :
    resolveUrl (jstr "x.ts") (getBaseUrl (jstr "https://cdn.example.com/a/b/live.m3u8?tok=1")) =
        getBaseUrl (jstr "https://cdn.example.com/a/b/live.m3u8?tok=1") ++ jstr "x.ts" ∧
      getBaseUrl (jstr "https://cdn.example.com/a/b/live.m3u8?tok=1") =
        amendedDirectory (jstr "https://cdn.example.com/a/b/live.m3u8?tok=1") :=
  claim4_amended_relative_resolution (jstr "x.ts")
    (jstr "https://cdn.example.com/a/b/live.m3u8?tok=1") (by decide) (by decide) (by decide)
    (by decide) (by decide)

-- ── Upstream fetch with retry (source: `fetchWithRetry`) ───────────────────

/-- An upstream HTTP response as the handlers consume it: status, the
`content-type` header (`""` when absent) and the payload text. -/
structure Upstream where
  status : Nat
  contentType : List Char
  body : List Char
  deriving DecidableEq

/-- JS `Response.ok`: status in the 2xx range. -/
def Upstream.isOk (r : Upstream) : Bool := 200 ≤ r.status ∧ r.status < 300

/-- The network is an oracle: per target URL and per attempt index it
either yields a response or raises a transport error (connection
failure, DNS failure, or the 20-second `AbortController` timeout). -/
def fwrGo (net : List Char → Nat → Except (List Char) Upstream) (url : List Char)
    (retries : Nat) : Nat → Nat → List Nat × Except (List Char) Upstream
  | attempt, fuel =>
    match net url attempt with
    | .ok r => ([], .ok r)
    | .error e =>
      if attempt < retries then
        match fuel with
        | 0 => ([], .error e)
        | f + 1 =>
          let tail := fwrGo net url retries (attempt + 1) f
          (min (500 * 2 ^ attempt) 4000 :: tail.1, tail.2)
      else ([], .error e)

/-- Source `fetchWithRetry(url, headers, retries = 3)`: attempts 0..3;
an HTTP response is returned at once whatever its status; a transport
error is retried after a delay of `min(500 · 2^attempt, 4000)` ms; after
the last attempt the last error is thrown.  The first component lists
the delays slept, the second is the outcome. -/
def fetchWithRetry (net : List Char → Nat → Except (List Char) Upstream) (url : List Char) :
    List Nat × Except (List Char) Upstream :=
  fwrGo net url 3 0 3

-- ── HTTP responses and headers ─────────────────────────────────────────────

/-- The observable parts of a `NextResponse`: status, body, content type. -/
structure JsResponse where
  status : Nat
  body : List Char
  contentType : Option (List Char)
  deriving DecidableEq

/-- Source `errorResponse(message, status)`: a plain string body with only
the CORS headers; Next.js serves such a body as `text/plain`. -/
def errorResponse (message : List Char) (status : Nat) : JsResponse :=
  ⟨status, message, some (jstr "text/plain;charset=UTF-8")⟩

/-- Source `playlistResponse(body)`: 200 with the HLS content type. -/
def playlistResponse (body : List Char) : JsResponse :=
  ⟨200, body, some (jstr "application/vnd.apple.mpegurl")⟩

/-- A channel as the registry returns it. -/
structure Channel where
  sourceUrl : List Char
  customHeaders : Option (List (List Char × List Char))
  deriving DecidableEq

/-- The browser-like default header set of `buildFetchHeaders`. -/
def defaultFetchHeaders (origin referer : List Char) : List (List Char × List Char) :=
  [(jstr "User-Agent",
      jstr "Mozilla/5.0 (Windows NT 10.0; Win64; x64) AppleWebKit/537.36 (KHTML, like Gecko) Chrome/131.0.0.0 Safari/537.36"),
    (jstr "Accept", jstr "*/*"),
    (jstr "Accept-Language", jstr "en-US,en;q=0.9"),
    (jstr "Accept-Encoding", jstr "gzip, deflate, br"),
    (jstr "Origin", origin),
    (jstr "Referer", referer),
    (jstr "Connection", jstr "keep-alive"),
    (jstr "Sec-Fetch-Dest", jstr "empty"),
    (jstr "Sec-Fetch-Mode", jstr "cors"),
    (jstr "Sec-Fetch-Site", jstr "cross-site")]

/-- JS object spread `{...base, ...extra}`: keys of `base` in order with
values overridden by `extra`, then the new keys of `extra`. -/
def jsObjectSpread (base extra : List (List Char × List Char)) :
    List (List Char × List Char) :=
  base.map (fun p => (p.1, (extra.lookup p.1).getD p.2)) ++
    extra.filter fun q => ¬ base.any fun p => p.1 = q.1

/-- Source `buildFetchHeaders(targetUrl, custom)`; when `new URL(targetUrl)`
throws, `Origin` and `Referer` stay empty. -/
def buildFetchHeaders (targetUrl : List Char)
    (custom : Option (List (List Char × List Char))) : List (List Char × List Char) :=
  let orig : List Char × List Char :=
    match jsParseURL targetUrl with
    | some u => (u.protocol ++ jstr "//" ++ u.host,
        u.protocol ++ jstr "//" ++ u.host ++ jstr "/")
    | none => ([], [])
  jsObjectSpread (defaultFetchHeaders orig.1 orig.2) (custom.getD [])

-- ── Content detection (source: `isPlaylistContent`, `detectContentType`) ───

/-- Source `isPlaylistContent(contentType, url, body?)`.  `Char.toLower`
matches JS `toLowerCase` on the ASCII inputs involved. -/
def isPlaylistContent (contentType url : List Char) (body : Option (List Char)) : Bool :=
  let ct := contentType.map Char.toLower
  if containsSub ct (jstr "mpegurl") || containsSub ct (jstr "m3u") then true
  else
    let path := (url.takeWhile fun c => c ≠ '?').map Char.toLower
    if endsWithList (jstr ".m3u8") path || endsWithList (jstr ".m3u") path then true
    else
      match body with
      | some b =>
        if b.isEmpty then false
        else startsWithList (jstr "#EXTM3U") (b.dropWhile jsWhitespace) ||
          containsSub b (jstr "#EXT-X-")
      | none => false

/-- The suffix-to-MIME table of `detectContentType`, in source order. -/
def mimeTable : List (List Char × List Char) :=
  [(jstr ".ts", jstr "video/mp2t"),
    (jstr ".aac", jstr "audio/aac"),
    (jstr ".mp4", jstr "video/mp4"),
    (jstr ".m4s", jstr "video/mp4"),
    (jstr ".fmp4", jstr "video/mp4"),
    (jstr ".m4a", jstr "audio/mp4"),
    (jstr ".mp3", jstr "audio/mpeg"),
    (jstr ".vtt", jstr "text/vtt"),
    (jstr ".webvtt", jstr "text/vtt"),
    (jstr ".srt", jstr "text/plain"),
    (jstr ".key", jstr "application/octet-stream"),
    (jstr ".json", jstr "application/json"),
    (jstr ".xml", jstr "application/xml"),
    (jstr ".jpg", jstr "image/jpeg"),
    (jstr ".jpeg", jstr "image/jpeg"),
    (jstr ".png", jstr "image/png"),
    (jstr ".webp", jstr "image/webp"),
    (jstr ".gif", jstr "image/gif"),
    (jstr ".woff", jstr "font/woff"),
    (jstr ".woff2", jstr "font/woff2")]

/-- Source `detectContentType(url, fallback)`. -/
def detectContentType (url fallbackCt : List Char) : List Char :=
  let path := (url.takeWhile fun c => c ≠ '?').map Char.toLower
  match mimeTable.find? (fun p => endsWithList p.1 path) with
  | some p => p.2
  | none => if fallbackCt.isEmpty then jstr "application/octet-stream" else fallbackCt

-- ── The two handlers and the GET dispatcher ────────────────────────────────

instance {α β : Type} [DecidableEq α] [DecidableEq β] : DecidableEq (Except α β) := fun a b =>
  match a, b with
  | .error x, .error y =>
    if h : x = y then .isTrue (by rw [h]) else .isFalse fun he => h (by injection he)
  | .ok x, .ok y =>
    if h : x = y then .isTrue (by rw [h]) else .isFalse fun he => h (by injection he)
  | .error _, .ok _ => .isFalse fun he => Except.noConfusion he
  | .ok _, .error _ => .isFalse fun he => Except.noConfusion he

/-- A handler outcome: the response, or the thrown message that `GET`'s
catch converts to a 502; plus the upstream requests issued (URL and
outbound header set), so that "no upstream fetch" is observable. -/
structure HandlerOut where
  result : Except (List Char) JsResponse
  fetched : List (List Char × List (List Char × List Char))
  deriving DecidableEq

/-- Source `handleResourceProxy(encodedUrl, proxyOrigin, headersParam)`.

Node's `Buffer.from(encodedUrl, "base64url")` never throws on string
input (its decoder is forgiving), so the source's catch branch answering
400 `Invalid URL encoding` is unreachable and the decode below is total.
`JSON.parse(decodeURIComponent(...))` is an external runtime call,
modelled by the `parseHeadersToken` oracle; `none` stands for the parse
failure that the source swallows.  The two binary sub-branches (buffered
array vs. streamed body) both answer 200 with the detected content type
and the upstream payload and are modelled as one response. -/
def handleResourceProxy (encodedUrl proxyOrigin : List Char)
    (headersParam : Option (List Char))
    (net : List Char → Nat → Except (List Char) Upstream)
    (parseHeadersToken : List Char → Option (List (List Char × List Char))) : HandlerOut :=
  let targetUrl := bufferFromBase64urlToUtf8 encodedUrl
  if ¬ (startsWithList (jstr "http://") targetUrl ||
      startsWithList (jstr "https://") targetUrl) then
    ⟨.ok (errorResponse (jstr "Invalid URL scheme") 400), []⟩
  else
    let customHeaders : Option (List (List Char × List Char)) :=
      match headersParam with
      | some hp => parseHeadersToken hp
      | none => none
    let fetchHeaders := buildFetchHeaders targetUrl customHeaders
    match fetchWithRetry net targetUrl with
    | (_, .error e) => ⟨.error e, [(targetUrl, fetchHeaders)]⟩
    | (_, .ok res) =>
      if ¬ res.isOk then
        let st := if 400 ≤ res.status ∧ res.status < 500 then res.status else 502
        ⟨.ok (errorResponse (jstr "Upstream " ++ natToStr res.status) st),
          [(targetUrl, fetchHeaders)]⟩
      else if isPlaylistContent res.contentType targetUrl none then
        ⟨.ok (playlistResponse (rewritePlaylist res.body (getBaseUrl targetUrl) proxyOrigin
          headersParam)), [(targetUrl, fetchHeaders)]⟩
      else
        ⟨.ok ⟨200, res.body, some (detectContentType targetUrl res.contentType)⟩,
          [(targetUrl, fetchHeaders)]⟩

/-- Source `handleChannelPlaylist(channelId, proxyOrigin)`.  The registry
lookup `getChannelById` and `encodeURIComponent(JSON.stringify(...))` are
external calls, modelled by the `lookup` and `encodeHeadersToken`
oracles. -/
def handleChannelPlaylist (channelId proxyOrigin : List Char)
    (lookup : List Char → Option Channel)
    (net : List Char → Nat → Except (List Char) Upstream)
    (encodeHeadersToken : List (List Char × List Char) → List Char) : HandlerOut :=
  match lookup channelId with
  | none => ⟨.ok ⟨404, jstr "#EXTM3U\n#EXT-X-ERROR:Channel not found",
      some (jstr "application/vnd.apple.mpegurl")⟩, []⟩
  | some channel =>
    let fetchHeaders := buildFetchHeaders channel.sourceUrl channel.customHeaders
    match fetchWithRetry net channel.sourceUrl with
    | (_, .error e) => ⟨.error e, [(channel.sourceUrl, fetchHeaders)]⟩
    | (_, .ok res) =>
      if ¬ res.isOk then
        ⟨.ok ⟨502, jstr "#EXTM3U\n#EXT-X-ERROR:Upstream returned " ++ natToStr res.status,
          some (jstr "application/vnd.apple.mpegurl")⟩, [(channel.sourceUrl, fetchHeaders)]⟩
      else if isPlaylistContent res.contentType channel.sourceUrl (some res.body) then
        let baseUrl := getBaseUrl channel.sourceUrl
        let hParam := channel.customHeaders.map encodeHeadersToken
        ⟨.ok (playlistResponse (rewritePlaylist res.body baseUrl proxyOrigin hParam)),
          [(channel.sourceUrl, fetchHeaders)]⟩
      else
        let encoded := bufferFromUtf8ToBase64url channel.sourceUrl
        ⟨.ok (playlistResponse (joinNl [jstr "#EXTM3U", jstr "#EXT-X-VERSION:3",
          jstr "#EXT-X-STREAM-INF:BANDWIDTH=0",
          proxyOrigin ++ jstr "/api/proxy/s?url=" ++ encoded])),
          [(channel.sourceUrl, fetchHeaders)]⟩

/-- The dispatcher's result: the response finally sent plus the upstream
requests issued. -/
structure GetResult where
  resp : JsResponse
  fetched : List (List Char × List (List Char × List Char))
  deriving DecidableEq

/-- The `try`/`catch` around the route body: a thrown error becomes a 502
with the HLS-formatted error body. -/
def runHandler (out : HandlerOut) : GetResult :=
  match out.result with
  | .ok r => ⟨r, out.fetched⟩
  | .error msg => ⟨⟨502, jstr "#EXTM3U\n#EXT-X-ERROR:" ++ msg,
      some (jstr "application/vnd.apple.mpegurl")⟩, out.fetched⟩

/-- `url.searchParams.get("h") || undefined`: the empty string is falsy
and treated like an absent value. -/
def normalizeHParam (hParam : Option (List Char)) : Option (List Char) :=
  match hParam with
  | some h => if h.isEmpty then none else some h
  | none => none

/-- Source `GET`: route on the path segments, then catch any thrown error
and answer 502 with an HLS-formatted body.  `urlParam`/`hParam` are the
`url`/`h` query values (`searchParams.get` yields `null` → `none`; the
source's `!encodedUrl` treats the empty string like an absent value). -/
def GET (segments : List (List Char)) (urlParam hParam : Option (List Char))
    (origin : List Char) (lookup : List Char → Option Channel)
    (net : List Char → Nat → Except (List Char) Upstream)
    (parseHeadersToken : List Char → Option (List (List Char × List Char)))
    (encodeHeadersToken : List (List Char × List Char) → List Char) : GetResult :=
  runHandler <|
    if segments.length = 1 ∧ endsWithList (jstr ".m3u8") (segments.headD []) then
      let seg := segments.headD []
      handleChannelPlaylist (seg.take (seg.length - 5)) origin lookup net encodeHeadersToken
    else if segments.head? = some (jstr "s") then
      match urlParam with
      | none => ⟨.ok (errorResponse (jstr "Missing ?url= parameter") 400), []⟩
      | some u =>
        if u.isEmpty then ⟨.ok (errorResponse (jstr "Missing ?url= parameter") 400), []⟩
        else handleResourceProxy u origin (normalizeHParam hParam) net parseHeadersToken
    else ⟨.ok (errorResponse (jstr "Unknown proxy route") 404), []⟩

-- ── Claim C5: retry behaviour ──────────────────────────────────────────────

theorem fwrGo_ok (net : List Char → Nat → Except (List Char) Upstream)
    (url : List Char) (retries attempt fuel : Nat) (r : Upstream)
    (h : net url attempt = .ok r) :
    fwrGo net url retries attempt fuel = ([], .ok r) := by
  rw [fwrGo, h]


theorem fwrGo_err_retry (net : List Char → Nat → Except (List Char) Upstream)
    (url : List Char) (retries attempt f : Nat) (e : List Char)
    (h : net url attempt = .error e) (hlt : attempt < retries) :
    fwrGo net url retries attempt (f + 1) =
      (min (500 * 2 ^ attempt) 4000 :: (fwrGo net url retries (attempt + 1) f).1,
        (fwrGo net url retries (attempt + 1) f).2) := by
  rw [fwrGo, h]
  dsimp only
  rw [if_pos hlt]

theorem fwrGo_err_last (net : List Char → Nat → Except (List Char) Upstream)
    (url : List Char) (retries attempt fuel : Nat) (e : List Char)
    (h : net url attempt = .error e) (hge : ¬ attempt < retries) :
    fwrGo net url retries attempt fuel = ([], .error e) := by
  rw [fwrGo, h]
  dsimp only
  rw [if_neg hge]

/-- Claim C5: `fetchWithRetry` returns any received HTTP response to its
caller immediately regardless of status code (the first successful
attempt `k ≤ 3` ends the loop, with only the `k` pre-retry delays slept);
only transport failures trigger a retry, with at most 3 retries after the
initial attempt and a pre-retry delay of `min(500 · 2^attempt, 4000)` ms;
after all four attempts fail it raises the last transport error. -/
theorem claim5_fetchWithRetry_behaviour
    (net : List Char → Nat → Except (List Char) Upstream) (url : List Char) :
    (∀ (k : Nat) (r : Upstream), k ≤ 3 → (∀ j, j < k → ∃ e, net url j = .error e) →
      net url k = .ok r →
      fetchWithRetry net url = ((List.range k).map fun i => min (500 * 2 ^ i) 4000, .ok r)) ∧
    ((∀ j, j ≤ 3 → ∃ e, net url j = .error e) →
      ∃ e, net url 3 = .error e ∧
        fetchWithRetry net url =
          ([min (500 * 2 ^ 0) 4000, min (500 * 2 ^ 1) 4000, min (500 * 2 ^ 2) 4000],
            .error e)) := by
  constructor
  · intro k r hk hfail hok
    interval_cases k
    · rw [fetchWithRetry, fwrGo_ok net url 3 0 3 r hok]
      rfl
    · obtain ⟨e0, h0⟩ := hfail 0 (by omega)
      rw [fetchWithRetry, fwrGo_err_retry net url 3 0 2 e0 h0 (by omega),
        fwrGo_ok net url 3 1 2 r hok]
      rfl
    · obtain ⟨e0, h0⟩ := hfail 0 (by omega)
      obtain ⟨e1, h1⟩ := hfail 1 (by omega)
      rw [fetchWithRetry, fwrGo_err_retry net url 3 0 2 e0 h0 (by omega),
        fwrGo_err_retry net url 3 1 1 e1 h1 (by omega), fwrGo_ok net url 3 2 1 r hok]
      rfl
    · obtain ⟨e0, h0⟩ := hfail 0 (by omega)
      obtain ⟨e1, h1⟩ := hfail 1 (by omega)
      obtain ⟨e2, h2⟩ := hfail 2 (by omega)
      rw [fetchWithRetry, fwrGo_err_retry net url 3 0 2 e0 h0 (by omega),
        fwrGo_err_retry net url 3 1 1 e1 h1 (by omega),
        fwrGo_err_retry net url 3 2 0 e2 h2 (by omega), fwrGo_ok net url 3 3 0 r hok]
      rfl
  · intro hfail
    obtain ⟨e0, h0⟩ := hfail 0 (by omega)
    obtain ⟨e1, h1⟩ := hfail 1 (by omega)
    obtain ⟨e2, h2⟩ := hfail 2 (by omega)
    obtain ⟨e3, h3⟩ := hfail 3 (by omega)
    refine ⟨e3, h3, ?_⟩
    rw [fetchWithRetry, fwrGo_err_retry net url 3 0 2 e0 h0 (by omega),
      fwrGo_err_retry net url 3 1 1 e1 h1 (by omega),
      fwrGo_err_retry net url 3 2 0 e2 h2 (by omega),
      fwrGo_err_last net url 3 3 0 e3 h3 (by omega)]

theorem claim5_fetchWithRetry_behaviour_witness :
    ∃ e, (fun (_ : List Char) (_ : Nat) =>
        (Except.error (jstr "refused") : Except (List Char) Upstream)) (jstr "http://u/") 3 =
          .error e ∧
      fetchWithRetry
          (fun _ _ => (Except.error (jstr "refused") : Except (List Char) Upstream))
          (jstr "http://u/") =
        ([min (500 * 2 ^ 0) 4000, min (500 * 2 ^ 1) 4000, min (500 * 2 ^ 2) 4000],
          .error e) :=
  (claim5_fetchWithRetry_behaviour
      (fun _ _ => (Except.error (jstr "refused") : Except (List Char) Upstream))
      (jstr "http://u/")).2
    fun _ _ => ⟨jstr "refused", rfl⟩

-- ── Claim C2: non-http(s) tokens are rejected before any fetch ─────────────

theorem handleResourceProxy_bad_scheme (token proxyOrigin : List Char)
    (headersParam : Option (List Char))
    (net : List Char → Nat → Except (List Char) Upstream)
    (parseHeadersToken : List Char → Option (List (List Char × List Char)))
    (hns : startsWithHttpUrl (bufferFromBase64urlToUtf8 token) = false) :
    handleResourceProxy token proxyOrigin headersParam net parseHeadersToken =
      ⟨.ok (errorResponse (jstr "Invalid URL scheme") 400), []⟩ := by
  unfold handleResourceProxy
  rw [if_pos]
  rw [show (startsWithList (jstr "http://") (bufferFromBase64urlToUtf8 token) ||
    startsWithList (jstr "https://") (bufferFromBase64urlToUtf8 token)) =
    startsWithHttpUrl (bufferFromBase64urlToUtf8 token) from rfl, hns]
  simp

/-- Claim C2: for every `url` token whose base64url-decoded value does
not begin with `http://` or `https://`, the encoded-resource handler
responds 400 `Invalid URL scheme` and issues no upstream fetch; in
particular the token `bm90LWEtdXJs` (decoding to `not-a-url`) receives
that response. -/
theorem claim2_invalid_scheme_rejected (token proxyOrigin : List Char)
    (headersParam : Option (List Char))
    (net : List Char → Nat → Except (List Char) Upstream)
    (parseHeadersToken : List Char → Option (List (List Char × List Char)))
    (hns : startsWithHttpUrl (bufferFromBase64urlToUtf8 token) = false) :
    handleResourceProxy token proxyOrigin headersParam net parseHeadersToken =
        ⟨.ok (errorResponse (jstr "Invalid URL scheme") 400), []⟩ ∧
      bufferFromBase64urlToUtf8 (jstr "bm90LWEtdXJs") = jstr "not-a-url" ∧
      handleResourceProxy (jstr "bm90LWEtdXJs") proxyOrigin headersParam net
          parseHeadersToken =
        ⟨.ok (errorResponse (jstr "Invalid URL scheme") 400), []⟩ :=
  ⟨handleResourceProxy_bad_scheme token proxyOrigin headersParam net parseHeadersToken hns,
    by decide,
    handleResourceProxy_bad_scheme _ proxyOrigin headersParam net parseHeadersToken (by decide)⟩

theorem claim2_invalid_scheme_rejected_witness :
    handleResourceProxy (jstr "bm90LWEtdXJs") (jstr "http://p") none
          (fun _ _ => (Except.error (jstr "x") : Except (List Char) Upstream))
          (fun _ => none) =
        ⟨.ok (errorResponse (jstr "Invalid URL scheme") 400), []⟩ ∧
      bufferFromBase64urlToUtf8 (jstr "bm90LWEtdXJs") = jstr "not-a-url" ∧
      handleResourceProxy (jstr "bm90LWEtdXJs") (jstr "http://p") none
          (fun _ _ => (Except.error (jstr "x") : Except (List Char) Upstream))
          (fun _ => none) =
        ⟨.ok (errorResponse (jstr "Invalid URL scheme") 400), []⟩ :=
  claim2_invalid_scheme_rejected (jstr "bm90LWEtdXJs") (jstr "http://p") none
    (fun _ _ => (Except.error (jstr "x") : Except (List Char) Upstream)) (fun _ => none)
    (by decide)

-- ── Claim C7: the `Invalid URL encoding` branch is dead ────────────────────

/-- What "valid base64url" means for the unpadded tokens of this API
(RFC 4648 §5): alphabet characters only, and not a length of 1 mod 4. -/
def isValidBase64url (s : List Char) : Bool :=
  s.all isB64Char && decide (s.length % 4 ≠ 1)

/-- Exhaustive case analysis of `handleResourceProxy`'s outcomes. -/
theorem handleResourceProxy_cases (token proxyOrigin : List Char)
    (headersParam : Option (List Char))
    (net : List Char → Nat → Except (List Char) Upstream)
    (parseHeadersToken : List Char → Option (List (List Char × List Char))) :
    handleResourceProxy token proxyOrigin headersParam net parseHeadersToken =
        ⟨.ok (errorResponse (jstr "Invalid URL scheme") 400), []⟩ ∨
      (∃ (e : List Char) (hdrs : List (List Char × List Char)),
        handleResourceProxy token proxyOrigin headersParam net parseHeadersToken =
          ⟨.error e, [(bufferFromBase64urlToUtf8 token, hdrs)]⟩) ∨
      (∃ (res : Upstream) (st : Nat) (hdrs : List (List Char × List Char)),
        handleResourceProxy token proxyOrigin headersParam net parseHeadersToken =
          ⟨.ok (errorResponse (jstr "Upstream " ++ natToStr res.status) st),
            [(bufferFromBase64urlToUtf8 token, hdrs)]⟩) ∨
      (∃ (res : Upstream) (hdrs : List (List Char × List Char)),
        handleResourceProxy token proxyOrigin headersParam net parseHeadersToken =
          ⟨.ok (playlistResponse (rewritePlaylist res.body
            (getBaseUrl (bufferFromBase64urlToUtf8 token)) proxyOrigin headersParam)),
            [(bufferFromBase64urlToUtf8 token, hdrs)]⟩) ∨
      (∃ (res : Upstream) (hdrs : List (List Char × List Char)),
        handleResourceProxy token proxyOrigin headersParam net parseHeadersToken =
          ⟨.ok ⟨200, res.body, some (detectContentType (bufferFromBase64urlToUtf8 token)
            res.contentType)⟩, [(bufferFromBase64urlToUtf8 token, hdrs)]⟩) := by
  unfold handleResourceProxy
  by_cases hsch : (startsWithList (jstr "http://") (bufferFromBase64urlToUtf8 token) ||
      startsWithList (jstr "https://") (bufferFromBase64urlToUtf8 token)) = true
  · rw [if_neg (by simp [hsch])]
    dsimp only
    rcases hfw : fetchWithRetry net (bufferFromBase64urlToUtf8 token) with ⟨ds, out⟩
    cases out with
    | error e =>
      dsimp only
      right
      left
      exact ⟨e, _, rfl⟩
    | ok res =>
      dsimp only
      by_cases hok : res.isOk = true
      · rw [if_neg (by simp [hok])]
        by_cases hpl : isPlaylistContent res.contentType (bufferFromBase64urlToUtf8 token)
            none = true
        · rw [if_pos hpl]
          right
          right
          right
          left
          exact ⟨res, _, rfl⟩
        · rw [if_neg hpl]
          right
          right
          right
          right
          exact ⟨res, _, rfl⟩
      · rw [if_pos (by simp [hok])]
        right
        right
        left
        exact ⟨res, _, _, rfl⟩
  · rw [if_pos (by simp [hsch])]
    left
    rfl

/-- Counterexample to claim C7 as stated: `!!!` is not valid base64url,
yet the handler answers 400 `Invalid URL scheme` (Node's forgiving
decoder turns `!!!` into the empty string rather than throwing), not
400 `Invalid URL encoding`. -/
theorem claim7_counterexample :
    isValidBase64url (jstr "!!!") = false ∧
      handleResourceProxy (jstr "!!!") (jstr "http://p") none
          (fun _ _ => (Except.error (jstr "x") : Except (List Char) Upstream))
          (fun _ => none) =
        ⟨.ok (errorResponse (jstr "Invalid URL scheme") 400), []⟩ ∧
      jstr "Invalid URL scheme" ≠ jstr "Invalid URL encoding" :=
  ⟨by decide, by decide, by decide⟩

/-- Claim C7 (amended): Node's base64url decoder is forgiving and never
throws, so the handler's `Invalid URL encoding` branch is unreachable —
no 400 response ever carries that body.  A `url` value that is not valid
base64url is decoded leniently (non-alphabet characters are skipped)
and, whenever the resulting string does not begin with `http://` or
`https://`, the handler answers 400 `Invalid URL scheme` without
fetching upstream. -/
theorem claim7_amended_lenient_decoding (token proxyOrigin : List Char)
    (headersParam : Option (List Char))
    (net : List Char → Nat → Except (List Char) Upstream)
    (parseHeadersToken : List Char → Option (List (List Char × List Char))) :
    (∀ r, (handleResourceProxy token proxyOrigin headersParam net parseHeadersToken).result =
        .ok r → r.status = 400 → r.body ≠ jstr "Invalid URL encoding") ∧
      (startsWithHttpUrl (bufferFromBase64urlToUtf8 token) = false →
        handleResourceProxy token proxyOrigin headersParam net parseHeadersToken =
          ⟨.ok (errorResponse (jstr "Invalid URL scheme") 400), []⟩) := by
  constructor
  · intro r hr hst
    rcases handleResourceProxy_cases token proxyOrigin headersParam net parseHeadersToken with
      hc | ⟨e, hdrs, hc⟩ | ⟨res, st, hdrs, hc⟩ | ⟨res, hdrs, hc⟩ | ⟨res, hdrs, hc⟩
    · rw [hc] at hr
      simp only [Except.ok.injEq] at hr
      subst hr
      decide
    · rw [hc] at hr
      exact absurd hr (by simp)
    · rw [hc] at hr
      simp only [Except.ok.injEq] at hr
      subst hr
      intro heq
      have h2 := congrArg List.head? heq
      dsimp only [errorResponse] at h2
      rw [show (jstr "Upstream " ++ natToStr res.status).head? = some 'U' from rfl] at h2
      exact absurd h2 (by decide)
    · rw [hc] at hr
      simp only [Except.ok.injEq] at hr
      subst hr
      simp [playlistResponse] at hst
    · rw [hc] at hr
      simp only [Except.ok.injEq] at hr
      subst hr
      simp at hst
  · intro hns
    exact handleResourceProxy_bad_scheme token proxyOrigin headersParam net
      parseHeadersToken hns

theorem claim7_amended_lenient_decoding_witness :
    (∀ r, (handleResourceProxy (jstr "!!!") (jstr "http://p") none
        (fun _ _ => (Except.error (jstr "x") : Except (List Char) Upstream))
        (fun _ => none)).result = .ok r → r.status = 400 →
        r.body ≠ jstr "Invalid URL encoding") ∧
      (startsWithHttpUrl (bufferFromBase64urlToUtf8 (jstr "!!!")) = false →
        handleResourceProxy (jstr "!!!") (jstr "http://p") none
            (fun _ _ => (Except.error (jstr "x") : Except (List Char) Upstream))
            (fun _ => none) =
          ⟨.ok (errorResponse (jstr "Invalid URL scheme") 400), []⟩) :=
  claim7_amended_lenient_decoding (jstr "!!!") (jstr "http://p") none
    (fun _ _ => (Except.error (jstr "x") : Except (List Char) Upstream)) (fun _ => none)

-- ── Claim C8: route dispatch ───────────────────────────────────────────────

/-- Counterexample to claim C8 as stated: the multi-segment path
`["s", "x"]` is not answered 404 `Unknown proxy route`; because only the
first segment is compared against `"s"`, it is handled by the
encoded-resource route (here answering 400 `Invalid URL scheme` for the
token `AAAA`). -/
theorem claim8_counterexample :
    (GET [jstr "s", jstr "x"] (some (jstr "AAAA")) none (jstr "http://p") (fun _ => none)
        (fun _ _ => (Except.error (jstr "x") : Except (List Char) Upstream)) (fun _ => none)
        (fun _ => jstr "t")).resp =
      errorResponse (jstr "Invalid URL scheme") 400 ∧
      errorResponse (jstr "Invalid URL scheme") 400 ≠
        errorResponse (jstr "Unknown proxy route") 404 :=
  ⟨by decide, by decide⟩

/-- Claim C8 (amended): dispatch under the proxy prefix is exactly: a
single path segment ending in `.m3u8` is handled as the channel route
with id equal to the segment minus its `.m3u8` suffix, not further
decoded; otherwise every path whose first segment is `s` — including
multi-segment paths — is handled as the encoded-resource route (its
`url` query token required, 400 `Missing ?url= parameter` when absent or
empty); every other path receives 404 `Unknown proxy route` and no
upstream fetch. -/
theorem claim8_amended_dispatch (segments : List (List Char))
    (urlParam hParam : Option (List Char)) (origin : List Char)
    (lookup : List Char → Option Channel)
    (net : List Char → Nat → Except (List Char) Upstream)
    (parseHeadersToken : List Char → Option (List (List Char × List Char)))
    (encodeHeadersToken : List (List Char × List Char) → List Char) :
    ((segments.length = 1 ∧ endsWithList (jstr ".m3u8") (segments.headD []) = true) →
      GET segments urlParam hParam origin lookup net parseHeadersToken encodeHeadersToken =
        runHandler (handleChannelPlaylist
          ((segments.headD []).take ((segments.headD []).length - 5)) origin lookup net
          encodeHeadersToken)) ∧
    (¬ (segments.length = 1 ∧ endsWithList (jstr ".m3u8") (segments.headD []) = true) →
      segments.head? = some (jstr "s") →
      (∀ u, urlParam = some u → u ≠ [] →
        GET segments urlParam hParam origin lookup net parseHeadersToken encodeHeadersToken =
          runHandler (handleResourceProxy u origin (normalizeHParam hParam) net
            parseHeadersToken)) ∧
      ((urlParam = none ∨ urlParam = some []) →
        (GET segments urlParam hParam origin lookup net parseHeadersToken
          encodeHeadersToken).resp = errorResponse (jstr "Missing ?url= parameter") 400)) ∧
    (¬ (segments.length = 1 ∧ endsWithList (jstr ".m3u8") (segments.headD []) = true) →
      segments.head? ≠ some (jstr "s") →
      GET segments urlParam hParam origin lookup net parseHeadersToken encodeHeadersToken =
        ⟨errorResponse (jstr "Unknown proxy route") 404, []⟩) := by
  refine ⟨?_, ?_, ?_⟩
  · intro hcond
    unfold GET
    rw [if_pos hcond]
  · intro hcond hs
    constructor
    · intro u hu hune
      unfold GET
      rw [if_neg hcond, if_pos hs, hu]
      dsimp only
      rw [if_neg (by simpa using hune)]
    · intro hu
      unfold GET
      rw [if_neg hcond, if_pos hs]
      rcases hu with rfl | rfl
      · rfl
      · rfl
  · intro hcond hs
    unfold GET
    rw [if_neg hcond, if_neg hs]
    rfl

theorem claim8_amended_dispatch_witness :
    (GET [jstr "s", jstr "x"] (some (jstr "AAAA")) none (jstr "http://q") (fun _ => none)
        (fun _ _ => (Except.error (jstr "y") : Except (List Char) Upstream)) (fun _ => none)
        (fun _ => jstr "t")) =
      runHandler (handleResourceProxy (jstr "AAAA") (jstr "http://q") (normalizeHParam none)
        (fun _ _ => (Except.error (jstr "y") : Except (List Char) Upstream))
        (fun _ => none)) :=
  (((claim8_amended_dispatch [jstr "s", jstr "x"] (some (jstr "AAAA")) none (jstr "http://q")
      (fun _ => none) (fun _ _ => (Except.error (jstr "y") : Except (List Char) Upstream))
      (fun _ => none) (fun _ => jstr "t")).2.1 (by decide) (by decide)).1 (jstr "AAAA") rfl
    (by decide))

-- ── Claim C6: transport failure on the encoded-resource route ──────────────

/-- Counterexample to claim C6 as stated: a transport failure on the
encoded-resource endpoint does answer 502, but with an HLS-formatted
body and the HLS content type — the shared catch in `GET` formats every
thrown error as `#EXTM3U\n#EXT-X-ERROR:<msg>` — not a `text/plain`
body. -/
theorem claim6_counterexample :
    (GET [jstr "s"] (some (bufferFromUtf8ToBase64url (jstr "http://u/"))) none (jstr "http://p")
        (fun _ => none)
        (fun _ _ => (Except.error (jstr "boom") : Except (List Char) Upstream))
        (fun _ => none) (fun _ => jstr "t")).resp =
      ⟨502, jstr "#EXTM3U\n#EXT-X-ERROR:boom", some (jstr "application/vnd.apple.mpegurl")⟩ ∧
      startsWithList (jstr "#EXTM3U") (jstr "#EXTM3U\n#EXT-X-ERROR:boom") = true ∧
      (some (jstr "application/vnd.apple.mpegurl") : Option (List Char)) ≠
        some (jstr "text/plain;charset=UTF-8") :=
  ⟨by decide, by decide, by decide⟩

/-- Claim C6 (amended): for every request to the encoded-resource
endpoint whose upstream fetch fails at the transport level after all
retries, the response has status 502 with the HLS-formatted body
`#EXTM3U\n#EXT-X-ERROR:<message>` and content type
`application/vnd.apple.mpegurl` (the shared catch handler), not a
`text/plain` body. -/
theorem claim6_amended_transport_failure (token : List Char)
    (hParam : Option (List Char)) (origin : List Char)
    (lookup : List Char → Option Channel)
    (net : List Char → Nat → Except (List Char) Upstream)
    (parseHeadersToken : List Char → Option (List (List Char × List Char)))
    (encodeHeadersToken : List (List Char × List Char) → List Char)
    (hsch : startsWithHttpUrl (bufferFromBase64urlToUtf8 token) = true)
    (htok : token ≠ [])
    (hfail : ∀ j, j ≤ 3 → ∃ e, net (bufferFromBase64urlToUtf8 token) j = .error e) :
    ∃ e, net (bufferFromBase64urlToUtf8 token) 3 = .error e ∧
      (GET [jstr "s"] (some token) hParam origin lookup net parseHeadersToken
        encodeHeadersToken).resp =
        ⟨502, jstr "#EXTM3U\n#EXT-X-ERROR:" ++ e,
          some (jstr "application/vnd.apple.mpegurl")⟩ := by
  obtain ⟨e0, h0⟩ := hfail 0 (by omega)
  obtain ⟨e1, h1⟩ := hfail 1 (by omega)
  obtain ⟨e2, h2⟩ := hfail 2 (by omega)
  obtain ⟨e3, h3⟩ := hfail 3 (by omega)
  refine ⟨e3, h3, ?_⟩
  have hfw : fetchWithRetry net (bufferFromBase64urlToUtf8 token) =
      ([min (500 * 2 ^ 0) 4000, min (500 * 2 ^ 1) 4000, min (500 * 2 ^ 2) 4000],
        .error e3) := by
    rw [fetchWithRetry, fwrGo_err_retry net _ 3 0 2 e0 h0 (by omega),
      fwrGo_err_retry net _ 3 1 1 e1 h1 (by omega),
      fwrGo_err_retry net _ 3 2 0 e2 h2 (by omega),
      fwrGo_err_last net _ 3 3 0 e3 h3 (by omega)]
  unfold GET
  rw [if_neg (by decide), if_pos (by decide)]
  dsimp only
  rw [if_neg (by simpa using htok)]
  unfold handleResourceProxy
  rw [if_neg (by rw [show (startsWithList (jstr "http://") (bufferFromBase64urlToUtf8 token) ||
    startsWithList (jstr "https://") (bufferFromBase64urlToUtf8 token)) =
    startsWithHttpUrl (bufferFromBase64urlToUtf8 token) from rfl, hsch]; simp)]
  dsimp only
  rw [hfw]
  rfl

theorem claim6_amended_transport_failure_witness :
    ∃ e, (fun (_ : List Char) (_ : Nat) =>
        (Except.error (jstr "boom") : Except (List Char) Upstream))
        (bufferFromBase64urlToUtf8 (jstr "aHR0cDovL3Uv")) 3 = .error e ∧
      (GET [jstr "s"] (some (jstr "aHR0cDovL3Uv")) none (jstr "http://p") (fun _ => none)
        (fun _ _ => (Except.error (jstr "boom") : Except (List Char) Upstream))
        (fun _ => none) (fun _ => jstr "t")).resp =
        ⟨502, jstr "#EXTM3U\n#EXT-X-ERROR:" ++ e,
          some (jstr "application/vnd.apple.mpegurl")⟩ :=
  claim6_amended_transport_failure (jstr "aHR0cDovL3Uv") none (jstr "http://p")
    (fun _ => none)
    (fun _ _ => (Except.error (jstr "boom") : Except (List Char) Upstream))
    (fun _ => none) (fun _ => jstr "t") (by decide) (by decide)
    (fun _ _ => ⟨jstr "boom", rfl⟩)

-- ── Claim C9: the non-playlist wrapper drops the headers token ─────────────

/-- Claim C9: for every channel with a custom-headers map whose fetched
source body is not classified as a playlist, the synthesized four-line
wrapper playlist's URI line is
`{proxy_origin}/api/proxy/s?url=<base64url(sourceUrl)>` with no `h`
parameter appended, so the descendant fetch of the wrapped source URL is
performed with the default header set only — unlike the
rewritten-playlist branch, whose `makeProxyUrl` with the channel's
encoded headers token appends `&h=<token>` to every rewritten URI. -/
theorem claim9_wrapper_drops_headers (channelId origin : List Char)
    (lookup : List Char → Option Channel)
    (net : List Char → Nat → Except (List Char) Upstream)
    (encodeHeadersToken : List (List Char × List Char) → List Char)
    (ch : Channel) (hs : List (List Char × List Char)) (res : Upstream) (ds : List Nat)
    (hlk : lookup channelId = some ch)
    (_hch : ch.customHeaders = some hs)
    (hfw : fetchWithRetry net ch.sourceUrl = (ds, .ok res))
    (hok : res.isOk = true)
    (hnp : isPlaylistContent res.contentType ch.sourceUrl (some res.body) = false) :
    (handleChannelPlaylist channelId origin lookup net encodeHeadersToken).result =
        .ok (playlistResponse (joinNl [jstr "#EXTM3U", jstr "#EXT-X-VERSION:3",
          jstr "#EXT-X-STREAM-INF:BANDWIDTH=0",
          origin ++ jstr "/api/proxy/s?url=" ++ bufferFromUtf8ToBase64url ch.sourceUrl])) ∧
      (startsWithHttpUrl ch.sourceUrl = true →
        ∀ (net' : List Char → Nat → Except (List Char) Upstream)
          (parseHeadersToken : List Char → Option (List (List Char × List Char))),
          (handleResourceProxy (bufferFromUtf8ToBase64url ch.sourceUrl) origin none net'
            parseHeadersToken).fetched =
            [(ch.sourceUrl, buildFetchHeaders ch.sourceUrl none)]) ∧
      (∀ uri b, makeProxyUrl uri b origin (some (encodeHeadersToken hs)) =
        origin ++ jstr "/api/proxy/s?url=" ++ bufferFromUtf8ToBase64url (resolveUrl uri b) ++
          jstr "&h=" ++ encodeHeadersToken hs) := by
  refine ⟨?_, ?_, ?_⟩
  · unfold handleChannelPlaylist
    rw [hlk]
    dsimp only
    rw [hfw]
    dsimp only
    rw [if_neg (by simp [hok]), if_neg (by simp [hnp])]
  · intro hsrc net' parseHeadersToken
    unfold handleResourceProxy
    rw [buffer_url_roundtrip ch.sourceUrl]
    rw [if_neg (by rw [show (startsWithList (jstr "http://") ch.sourceUrl ||
      startsWithList (jstr "https://") ch.sourceUrl) = startsWithHttpUrl ch.sourceUrl
      from rfl, hsrc]; simp)]
    dsimp only
    rcases hfw' : fetchWithRetry net' ch.sourceUrl with ⟨ds', out'⟩
    cases out' with
    | error e => rfl
    | ok res' =>
      dsimp only
      by_cases hok' : res'.isOk = true
      · rw [if_neg (by simp [hok'])]
        by_cases hpl' : isPlaylistContent res'.contentType ch.sourceUrl none = true
        · rw [if_pos hpl']
        · rw [if_neg hpl']
      · rw [if_pos (by simp [hok'])]
  · intro uri b
    rw [makeProxyUrl_eq]
    simp [List.append_assoc]

theorem claim9_wrapper_drops_headers_witness :
    (handleChannelPlaylist (jstr "demo") (jstr "http://p")
        (fun _ => some ⟨jstr "http://h/v.mp4", some [(jstr "X-Key", jstr "V")]⟩)
        (fun _ _ => (Except.ok ⟨200, jstr "video/mp4", jstr "xx"⟩ :
          Except (List Char) Upstream))
        (fun _ => jstr "tok")).result =
        .ok (playlistResponse (joinNl [jstr "#EXTM3U", jstr "#EXT-X-VERSION:3",
          jstr "#EXT-X-STREAM-INF:BANDWIDTH=0",
          jstr "http://p" ++ jstr "/api/proxy/s?url=" ++
            bufferFromUtf8ToBase64url (jstr "http://h/v.mp4")])) ∧
      (startsWithHttpUrl (jstr "http://h/v.mp4") = true →
        ∀ (net' : List Char → Nat → Except (List Char) Upstream)
          (parseHeadersToken : List Char → Option (List (List Char × List Char))),
          (handleResourceProxy (bufferFromUtf8ToBase64url (jstr "http://h/v.mp4"))
            (jstr "http://p") none net' parseHeadersToken).fetched =
            [(jstr "http://h/v.mp4", buildFetchHeaders (jstr "http://h/v.mp4") none)]) ∧
      (∀ uri b, makeProxyUrl uri b (jstr "http://p")
          (some ((fun (_ : List (List Char × List Char)) => jstr "tok")
            [(jstr "X-Key", jstr "V")])) =
        jstr "http://p" ++ jstr "/api/proxy/s?url=" ++
          bufferFromUtf8ToBase64url (resolveUrl uri b) ++ jstr "&h=" ++
          (fun (_ : List (List Char × List Char)) => jstr "tok") [(jstr "X-Key", jstr "V")]) :=
  claim9_wrapper_drops_headers (jstr "demo") (jstr "http://p")
    (fun _ => some ⟨jstr "http://h/v.mp4", some [(jstr "X-Key", jstr "V")]⟩)
    (fun _ _ => (Except.ok ⟨200, jstr "video/mp4", jstr "xx"⟩ : Except (List Char) Upstream))
    (fun _ => jstr "tok") ⟨jstr "http://h/v.mp4", some [(jstr "X-Key", jstr "V")]⟩
    [(jstr "X-Key", jstr "V")] ⟨200, jstr "video/mp4", jstr "xx"⟩ [] rfl rfl (by decide)
    (by decide) (by decide)
